import Mathlib

/-!
# Verification of the Platform dataflow core

Shallow embedding of the core runtime of the Platform repository
(`backend/src/Core/{Value,Port,Connection,ObjectRepository,Element}.py` and
`backend/src/Scheme/Scheme.py`) together with proofs about the behaviour of
its operations.

Modelling conventions:
* Python `uuid.UUID` identifiers and CPython object identities (`id(obj)`)
  are modelled as `Nat`.
* Value payloads are opaque to the core; every payload relevant to the
  verified properties is numeric or absent, so payloads are modelled as
  `Option Int` with `none` standing for Python `None` (the "no value yet"
  marker).
* A Python method that can raise is modelled as a function returning the
  post-state paired with `Option String` (`some msg` = an exception raised
  at that point; the returned state reflects exactly the mutations performed
  before the raise).
* Python `dict`s are insertion-ordered maps and are modelled as association
  lists with `dict`-faithful insert (replace in place or append) and pop.
-/

namespace Platform

/-- `ValueStatus` from `Core/Value.py`: the knowledge state of a value. -/
inductive ValueStatus where
  | unknown
  | depend
  | calculated
  | fixed
deriving DecidableEq, Repr

/-- `ValueClass` from `Core/Value.py`: the semantic-type descriptor
`(value_name, physics_type, dimension)`.  Equality is structural on the three
fields, exactly as `__eq__`/`__hash__` define it. -/
structure ValueClass where
  value_name : Option String
  physics_type : Option String
  dimension : Option String
deriving DecidableEq, Repr

/-- `combine_dims` from `Core/Value.py` (lines 56-88), translated branch by
branch.  Note the Python truthiness test `f"1/({dim2})" if dim2 else None`:
an empty-string dimension is falsy, hence the `d2 ≠ ""` guard. -/
def combine_dims (dim1 dim2 : Option String) (op : String) : Option String :=
  if dim1 = none ∧ dim2 = none then none
  else if op = "+" ∨ op = "-" then
    if dim1 = dim2 then dim1 else none
  else if op = "*" then
    match dim1, dim2 with
    | none, _ => dim2
    | some d1, none => some d1
    | some d1, some d2 =>
      if d1 = d2 then some ("(" ++ d1 ++ ")^2")
      else some ("(" ++ d1 ++ ")*(" ++ d2 ++ ")")
  else if op = "/" then
    match dim1, dim2 with
    | none, some d2 => if d2 ≠ "" then some ("1/(" ++ d2 ++ ")") else none
    | none, none => none
    | some d1, none => some d1
    | some d1, some d2 =>
      if d1 = d2 then some "1"
      else some ("(" ++ d1 ++ ")/(" ++ d2 ++ ")")
  else none

/-- `Value._determine_result_spec` from `Core/Value.py` (lines 618-658),
restricted to the operators `+ - * /`.  The `**` branch of the source (which
formats a floating-point exponent into the dimension string) is not modelled;
no verified property invokes it, and the final fallback of the source
(`ValueClass(None, None, None)`) is kept for any other operator. -/
def determine_result_spec (self other : ValueClass) (op : String) : ValueClass :=
  if op = "+" ∨ op = "-" then
    if self = other then self
    else if self.dimension = other.dimension then ⟨none, none, self.dimension⟩
    else ⟨none, none, none⟩
  else if op = "*" then
    let physics_type := if self.physics_type = other.physics_type
      then self.physics_type else none
    ⟨none, physics_type, combine_dims self.dimension other.dimension "*"⟩
  else if op = "/" then
    let physics_type := if self.physics_type = other.physics_type
      then self.physics_type else none
    ⟨none, physics_type, combine_dims self.dimension other.dimension "/"⟩
  else ⟨none, none, none⟩

/-- `Value` from `Core/Value.py`: name, spec, current payload and status,
single-slot history and optional bounds.  Payloads are modelled as
`Option Int` (`none` = Python `None`). -/
structure Value where
  name : String
  value_spec : ValueClass
  val : Option Int
  status : ValueStatus
  store_prev : Bool
  prev_val : Option Int
  prev_status : Option ValueStatus
  min_value : Option Int
  max_value : Option Int
deriving DecidableEq, Repr

namespace Value

/-- The `value < self._min_value` test of `Value._validate_value`. -/
def belowMin (v : Value) (x : Int) : Bool :=
  match v.min_value with
  | some m => decide (x < m)
  | none => false

/-- The `value > self._max_value` test of `Value._validate_value`. -/
def aboveMax (v : Value) (x : Int) : Bool :=
  match v.max_value with
  | some m => decide (m < x)
  | none => false

/-- `Value._validate_value` (lines 224-247): `None` is always allowed;
otherwise the minimum bound is checked first, then the maximum. The result is
`some msg` when the method raises `ValueError`. -/
def validate_value (v : Value) (value : Option Int) : Option String :=
  match value with
  | none => none
  | some x =>
    if v.belowMin x then some "value below minimum"
    else if v.aboveMax x then some "value above maximum"
    else none

/-- `Value._save_previous` (lines 131-134). -/
def save_previous (v : Value) : Value :=
  { v with prev_val := v.val, prev_status := some v.status }

/-- `Value.update` (lines 249-266): validate the new payload first (raising
leaves the object untouched), then snapshot the current state into the
single-slot history if `store_prev`, then commit the payload, then commit the
status when one was supplied. -/
def update (v : Value) (new_value : Option Int) (new_status : Option ValueStatus) :
    Value × Option String :=
  match v.validate_value new_value with
  | some e => (v, some e)
  | none =>
    let v1 := if v.store_prev then v.save_previous else v
    let v2 := { v1 with val := new_value }
    let v3 := match new_status with
      | some s => { v2 with status := s }
      | none => v2
    (v3, none)

end Value

/-- A successful `update` (validation passed) commits the new payload, the
new status when given, and touches none of the other configuration fields. -/
theorem Value.update_of_validate (v : Value) (nv : Option Int)
    (ns : Option ValueStatus) (h : v.validate_value nv = none) :
    (v.update nv ns).2 = none ∧
    (v.update nv ns).1.val = nv ∧
    (v.update nv ns).1.status = ns.getD v.status ∧
    (v.update nv ns).1.value_spec = v.value_spec ∧
    (v.update nv ns).1.name = v.name ∧
    (v.update nv ns).1.store_prev = v.store_prev ∧
    (v.update nv ns).1.min_value = v.min_value ∧
    (v.update nv ns).1.max_value = v.max_value := by
  unfold Value.update
  rw [h]
  cases ns <;> by_cases hs : v.store_prev <;>
    simp [hs, Value.save_previous, Option.getD]

/-- Validation depends only on the bounds configuration of the receiving
value, which `update` never changes. -/
theorem Value.validate_value_congr (v w : Value) (nv : Option Int)
    (hmin : w.min_value = v.min_value) (hmax : w.max_value = v.max_value) :
    w.validate_value nv = v.validate_value nv := by
  cases nv <;> simp [Value.validate_value, Value.belowMin, Value.aboveMax,
    hmin, hmax]

/-- `Port` from `Core/Port.py`: a named, registration-ordered collection of
values.  Both versions of the source keep the values in registration order
(a list in `src/Core/Port.py`, an insertion-ordered repository in
`backend/src/Core/Port.py`); the collection is modelled as that ordered
list. -/
structure Port where
  name : String
  values : List Value
deriving DecidableEq, Repr

/-- The per-value body of `Port.reset` (lines 187-196 of `src/Core/Port.py`,
lines 159-168 of `backend/src/Core/Port.py`): a value whose status is
`CALCULATED` or `DEPEND` — or `FIXED` when `reset_fixed` is set — is updated
via `value.update(value.value, ValueStatus.UNKNOWN)`, i.e. the current
payload is re-committed and only the status changes to `UNKNOWN`. -/
def resetValue (reset_fixed : Bool) (v : Value) : Value × Option String :=
  if (v.status = .calculated ∨ v.status = .depend) ∨
      (reset_fixed = true ∧ v.status = .fixed) then
    v.update v.val (some .unknown)
  else (v, none)

/-- The `for value in self._values` loop of `Port.reset`: values are visited
in registration order and an exception raised by `update` aborts the loop,
leaving later values untouched. -/
def resetList (reset_fixed : Bool) : List Value → List Value × Option String
  | [] => ([], none)
  | v :: rest =>
    match resetValue reset_fixed v with
    | (v', some err) => (v' :: rest, some err)
    | (v', none) =>
      let (rest', e') := resetList reset_fixed rest
      (v' :: rest', e')

/-- `Port.reset`. -/
def Port.reset (p : Port) (reset_fixed : Bool) : Port × Option String :=
  let (vs, e) := resetList reset_fixed p.values
  ({ p with values := vs }, e)

/-- A value whose current payload satisfies its own bounds is reset without
an exception. -/
theorem resetValue_ok (reset_fixed : Bool) (v : Value)
    (h : v.validate_value v.val = none) :
    (resetValue reset_fixed v).2 = none := by
  unfold resetValue
  split
  · exact (Value.update_of_validate v v.val (some .unknown) h).1
  · rfl

/-- When every value resets without an exception, the loop of `Port.reset`
maps the per-value body over the whole list. -/
theorem resetList_ok (reset_fixed : Bool) (l : List Value)
    (h : ∀ v ∈ l, (resetValue reset_fixed v).2 = none) :
    resetList reset_fixed l =
      (l.map (fun v => (resetValue reset_fixed v).1), none) := by
  induction l with
  | nil => rfl
  | cons v rest ih =>
    have hv := h v (List.mem_cons_self v rest)
    have hrest := ih (fun w hw => h w (List.mem_cons_of_mem v hw))
    have hpair : resetValue reset_fixed v = ((resetValue reset_fixed v).1, none) := by
      rw [← hv]
    rw [resetList, hpair, hrest]
    simp

/-- C7 (counterexample): the claim says `reset(reset_fixed=false)` clears the
payload of a `Calculated` value; in the code `reset` re-commits the current
payload (`value.update(value.value, ValueStatus.UNKNOWN)`), so the payload 5
survives with status `Unknown`. -/
theorem port_reset_keeps_payload_counterexample :
    let v : Value :=
      { name := "G", value_spec := ⟨some "massflow", none, some "kg/s"⟩,
        val := some 5, status := ValueStatus.calculated, store_prev := true,
        prev_val := some 5, prev_status := some ValueStatus.calculated,
        min_value := none, max_value := none }
    let p : Port := { name := "P", values := [v] }
    (p.reset false).1.values.map Value.val = [some 5] ∧
    (p.reset false).1.values.map Value.status = [ValueStatus.unknown] ∧
    ¬ (p.reset false).1.values.map Value.val = [none] := by
  decide

/-- C7 (amended): `reset(reset_fixed)` visits every contained value; a
`Calculated` or `Depend` value gets status `Unknown` while its payload is
retained (re-committed, not cleared); an `Unknown` value is never changed; a
`Fixed` value is unchanged when `reset_fixed=false` and reset to `Unknown`
(again retaining its payload) when `reset_fixed=true`. -/
theorem port_reset_spec (p : Port) (rf : Bool)
    (hb : ∀ v ∈ p.values, v.validate_value v.val = none) :
    (p.reset rf).2 = none ∧
    (p.reset rf).1.values = p.values.map (fun v => (resetValue rf v).1) ∧
    ∀ v ∈ p.values,
      ((v.status = .calculated ∨ v.status = .depend) →
        (resetValue rf v).1.val = v.val ∧
        (resetValue rf v).1.status = .unknown) ∧
      (v.status = .unknown → (resetValue rf v).1 = v) ∧
      (v.status = .fixed →
        (rf = false → (resetValue rf v).1 = v) ∧
        (rf = true →
          (resetValue rf v).1.val = v.val ∧
          (resetValue rf v).1.status = .unknown)) := by
  have hreset := resetList_ok rf p.values
    (fun v hv => resetValue_ok rf v (hb v hv))
  refine ⟨?_, ?_, ?_⟩
  · simp [Port.reset, hreset]
  · simp [Port.reset, hreset]
  · intro v hv
    have hval := hb v hv
    refine ⟨?_, ?_, ?_⟩
    · intro hs
      have hcond : ((v.status = .calculated ∨ v.status = .depend) ∨
          (rf = true ∧ v.status = .fixed)) := Or.inl hs
      have := Value.update_of_validate v v.val (some .unknown) hval
      simp only [resetValue, if_pos hcond]
      exact ⟨this.2.1, this.2.2.1⟩
    · intro hs
      have hcond : ¬ ((v.status = .calculated ∨ v.status = .depend) ∨
          (rf = true ∧ v.status = .fixed)) := by
        simp [hs]
      simp [resetValue, if_neg hcond]
    · intro hs
      constructor
      · intro hrf
        have hcond : ¬ ((v.status = .calculated ∨ v.status = .depend) ∨
            (rf = true ∧ v.status = .fixed)) := by
          simp [hs, hrf]
        simp [resetValue, if_neg hcond]
      · intro hrf
        have hcond : ((v.status = .calculated ∨ v.status = .depend) ∨
            (rf = true ∧ v.status = .fixed)) := Or.inr ⟨hrf, hs⟩
        have := Value.update_of_validate v v.val (some .unknown) hval
        simp only [resetValue, if_pos hcond]
        exact ⟨this.2.1, this.2.2.1⟩

/-- Witness for C7 (amended) at a concrete port holding a `Depend`, an
`Unknown` and a `Fixed` value. -/
theorem port_reset_spec_witness :
    let vD : Value :=
      { name := "a", value_spec := ⟨some "x", none, none⟩,
        val := some 2, status := ValueStatus.depend, store_prev := true,
        prev_val := none, prev_status := none,
        min_value := none, max_value := none }
    let vU : Value :=
      { vD with name := "b", val := none, status := ValueStatus.unknown }
    let vF : Value :=
      { vD with name := "c", val := some 7, status := ValueStatus.fixed }
    let p : Port := { name := "P", values := [vD, vU, vF] }
    (p.reset false).2 = none ∧
    (p.reset false).1.values =
      [vD, vU, vF].map (fun v => (resetValue false v).1) ∧
    ∀ v ∈ p.values,
      ((v.status = .calculated ∨ v.status = .depend) →
        (resetValue false v).1.val = v.val ∧
        (resetValue false v).1.status = .unknown) ∧
      (v.status = .unknown → (resetValue false v).1 = v) ∧
      (v.status = .fixed →
        (false = false → (resetValue false v).1 = v) ∧
        (false = true →
          (resetValue false v).1.val = v.val ∧
          (resetValue false v).1.status = .unknown)) :=
  port_reset_spec _ false (by decide)

/-- `update` never changes the receiving value's spec, bounds, name or
history flag, whether it succeeds or raises. -/
theorem Value.update_preserves (v : Value) (nv : Option Int)
    (ns : Option ValueStatus) :
    (v.update nv ns).1.value_spec = v.value_spec ∧
    (v.update nv ns).1.min_value = v.min_value ∧
    (v.update nv ns).1.max_value = v.max_value ∧
    (v.update nv ns).1.store_prev = v.store_prev ∧
    (v.update nv ns).1.name = v.name := by
  unfold Value.update
  cases h : v.validate_value nv <;> cases ns <;>
    by_cases hs : v.store_prev <;> simp [h, hs, Value.save_previous]

/-- `update` raises no exception exactly when the validation of the new
payload passes. -/
theorem Value.update_err_iff (v : Value) (nv : Option Int)
    (ns : Option ValueStatus) :
    (v.update nv ns).2 = none ↔ v.validate_value nv = none := by
  unfold Value.update
  cases h : v.validate_value nv <;> simp [h]

/-! ## Connection (`Core/Connection.py`)

`Connection.validate` and `Connection.propagate` resolve the two elements
and the two ports through the element repository and then work purely on the
resolved out-port and in-port; they are modelled here directly on those two
ports.  `Connection._collect_by_spec` groups a port's values into a dict
keyed by `ValueClass` in first-occurrence key order, each group keeping the
registration order of the port; `Port.specs` below is that key order and
`Port.groupFor` is one group. -/

/-- Key insertion order of a Python dict: a new key is appended, an existing
key keeps its place. -/
def insertSpec (acc : List ValueClass) (s : ValueClass) : List ValueClass :=
  if s ∈ acc then acc else acc ++ [s]

/-- The key order of a dict built by successive insertions. -/
def firstDedup (l : List ValueClass) : List ValueClass :=
  l.foldl insertSpec []

/-- The keys of `Connection._collect_by_spec(port)`, in insertion order. -/
def Port.specs (p : Port) : List ValueClass :=
  firstDedup (p.values.map Value.value_spec)

/-- One group of `Connection._collect_by_spec(port)`: the port's values of
the given spec, in registration order. -/
def Port.groupFor (p : Port) (s : ValueClass) : List Value :=
  p.values.filter (fun v => decide (v.value_spec = s))

/-- The spec-compatibility core of `Connection.validate` (lines 35-83): both
ports carry the same set of `ValueClass` specs, and every shared spec has
the same multiplicity on both sides. -/
def Connection.validatePorts (out_port in_port : Port) : Bool :=
  decide ((∀ s ∈ out_port.specs, s ∈ in_port.specs) ∧
          (∀ s ∈ in_port.specs, s ∈ out_port.specs) ∧
          (∀ s ∈ out_port.specs,
            (out_port.groupFor s).length = (in_port.groupFor s).length))

/-- The per-pair body of the `propagate` loop (lines 105-110): copy
source→destination when the source is `CALCULATED`/`FIXED` and the
destination `DEPEND` (the `continue` makes the second branch unreachable in
that case), symmetrically destination→source, otherwise do nothing.  The
copy goes through `Value.update`, so it can raise a bounds error. -/
def propagatePair (v_out v_in : Value) : Value × Value × Option String :=
  if (v_out.status = .calculated ∨ v_out.status = .fixed) ∧
      v_in.status = .depend then
    (v_out, (v_in.update v_out.val (some .depend)).1,
     (v_in.update v_out.val (some .depend)).2)
  else if (v_in.status = .calculated ∨ v_in.status = .fixed) ∧
      v_out.status = .depend then
    ((v_out.update v_in.val (some .depend)).1, v_in,
     (v_out.update v_in.val (some .depend)).2)
  else (v_out, v_in, none)

/-- The `zip(out_list, in_list)` loop of `propagate` over one spec group: a
raised exception aborts the loop, leaving later pairs untouched. -/
def propagateZip : List Value → List Value →
    List Value × List Value × Option String
  | [], ins => ([], ins, none)
  | outs, [] => (outs, [], none)
  | v_out :: outs, v_in :: ins =>
    match propagatePair v_out v_in with
    | (v_out', v_in', some err) => (v_out' :: outs, v_in' :: ins, some err)
    | (v_out', v_in', none) =>
      let (outs', ins', e') := propagateZip outs ins
      (v_out' :: outs', v_in' :: ins', e')

/-- Write a processed spec group back into the port's value list: the values
carrying the given spec are replaced positionally, every other value stays
in place.  (In the source the group aliases the port's `Value` objects, so
mutating the group mutates the port; the functional model makes that write
explicit.) -/
def replaceSpec (s : ValueClass) : List Value → List Value → List Value
  | [], _ => []
  | v :: rest, repl =>
    if v.value_spec = s then
      match repl with
      | r :: rs => r :: replaceSpec s rest rs
      | [] => v :: replaceSpec s rest []
    else v :: replaceSpec s rest repl

/-- The outer loop of `propagate` over the shared specs.  (Python iterates
`out_specs.keys() & in_specs.keys()` in unspecified set order; the groups of
distinct specs are disjoint, so the final state does not depend on that
order, and the model fixes the out-port's key order.) -/
def propagateSpecs : List ValueClass → Port → Port →
    Port × Port × Option String
  | [], pOut, pIn => (pOut, pIn, none)
  | s :: rest, pOut, pIn =>
    match propagateZip (pOut.groupFor s) (pIn.groupFor s) with
    | (go', gi', e) =>
      let pOut' : Port := { pOut with values := replaceSpec s pOut.values go' }
      let pIn' : Port := { pIn with values := replaceSpec s pIn.values gi' }
      match e with
      | some err => (pOut', pIn', some err)
      | none => propagateSpecs rest pOut' pIn'

/-- The shared specs iterated by `propagate`
(`out_specs.keys() & in_specs.keys()`). -/
def sharedSpecs (pOut pIn : Port) : List ValueClass :=
  pOut.specs.filter (fun s => decide (s ∈ pIn.specs))

/-- `Connection.propagate` (lines 85-110), acting on the resolved out-port
and in-port. -/
def Connection.propagate (pOut pIn : Port) : Port × Port × Option String :=
  propagateSpecs (sharedSpecs pOut pIn) pOut pIn

/-- `propagatePair` never changes either value's spec. -/
theorem propagatePair_spec (v_out v_in : Value) :
    (propagatePair v_out v_in).1.value_spec = v_out.value_spec ∧
    (propagatePair v_out v_in).2.1.value_spec = v_in.value_spec := by
  unfold propagatePair
  split
  · exact ⟨rfl, (Value.update_preserves v_in v_out.val (some .depend)).1⟩
  · split
    · exact ⟨(Value.update_preserves v_out v_in.val (some .depend)).1, rfl⟩
    · exact ⟨rfl, rfl⟩

/-- `propagateZip` permutes no values between specs: both result lists carry
the specs of their inputs, positionally, whether or not an exception
aborts the loop. -/
theorem propagateZip_specs (gos gis : List Value) :
    (propagateZip gos gis).1.map Value.value_spec = gos.map Value.value_spec ∧
    (propagateZip gos gis).2.1.map Value.value_spec = gis.map Value.value_spec := by
  induction gos generalizing gis with
  | nil => cases gis <;> simp [propagateZip]
  | cons vo outs ih =>
    cases gis with
    | nil => simp [propagateZip]
    | cons vi ins =>
      have hp := propagatePair_spec vo vi
      rcases hpp : propagatePair vo vi with ⟨a, b, c⟩
      rw [hpp] at hp
      rcases hrec : propagateZip outs ins with ⟨o', i', e'⟩
      have hih := ih ins
      rw [hrec] at hih
      simp only [Prod.fst, Prod.snd] at hp hih
      cases c with
      | some err =>
        simp [propagateZip, hpp]
        exact ⟨hp.1, hp.2⟩
      | none =>
        simp [propagateZip, hpp, hrec]
        exact ⟨⟨hp.1, hih.1⟩, hp.2, hih.2⟩

/-- If the loop over one spec group raises no exception, then no single pair
raised one. -/
theorem propagateZip_err_none (gos gis : List Value)
    (h : (propagateZip gos gis).2.2 = none) :
    ∀ p ∈ gos.zip gis, (propagatePair p.1 p.2).2.2 = none := by
  induction gos generalizing gis with
  | nil => intro p hp; simp [List.zip] at hp
  | cons vo outs ih =>
    cases gis with
    | nil => intro p hp; simp [List.zip] at hp
    | cons vi ins =>
      rcases hpp : propagatePair vo vi with ⟨a, b, c⟩
      cases c with
      | some err => rw [propagateZip, hpp] at h; simp at h
      | none =>
        rcases hrec : propagateZip outs ins with ⟨o', i', e'⟩
        rw [propagateZip, hpp, hrec] at h
        simp at h
        intro p hp
        rcases List.mem_cons.mp hp with hhead | htail
        · subst hhead; rw [hpp]
        · exact ih ins (by rw [hrec]; exact h) p htail

/-- When every pair of a spec group propagates without an exception and the
two group lists have equal length (guaranteed by `validate`), the loop maps
the per-pair body over the zipped groups. -/
theorem propagateZip_ok (gos gis : List Value)
    (hlen : gos.length = gis.length)
    (h : ∀ p ∈ gos.zip gis, (propagatePair p.1 p.2).2.2 = none) :
    propagateZip gos gis =
      ((gos.zip gis).map (fun p => (propagatePair p.1 p.2).1),
       (gos.zip gis).map (fun p => (propagatePair p.1 p.2).2.1),
       none) := by
  induction gos generalizing gis with
  | nil =>
    cases gis with
    | nil => rfl
    | cons vi ins => simp at hlen
  | cons vo outs ih =>
    cases gis with
    | nil => simp at hlen
    | cons vi ins =>
      have hhead := h (vo, vi) (by simp [List.zip])
      rcases hpp : propagatePair vo vi with ⟨a, b, c⟩
      rw [hpp] at hhead
      simp at hhead
      subst hhead
      have hrec := ih ins (by simpa using hlen)
        (fun p hp => h p (List.mem_cons_of_mem _ hp))
      rw [propagateZip, hpp, hrec]
      simp [hpp]

/-- Writing back a spec group whose values all carry that spec and whose
length matches the group reproduces exactly that group under filtering. -/
theorem replaceSpec_filter_self (s : ValueClass) (l repl : List Value)
    (hr : ∀ r ∈ repl, r.value_spec = s)
    (hlen : repl.length =
      (l.filter (fun v => decide (v.value_spec = s))).length) :
    (replaceSpec s l repl).filter (fun v => decide (v.value_spec = s)) =
      repl := by
  induction l generalizing repl with
  | nil =>
    cases repl with
    | nil => rfl
    | cons r rs => simp at hlen
  | cons v rest ih =>
    by_cases hv : v.value_spec = s
    · rw [List.filter_cons_of_pos (by simp [hv])] at hlen
      cases repl with
      | nil => simp at hlen
      | cons r rs =>
        simp only [replaceSpec, if_pos hv]
        rw [List.filter_cons_of_pos (by simp [hr r (by simp)])]
        simp only [List.length_cons, Nat.succ.injEq] at hlen
        rw [ih rs (fun x hx => hr x (List.mem_cons_of_mem _ hx)) hlen]
    · rw [List.filter_cons_of_neg (by simp [hv])] at hlen
      simp only [replaceSpec, if_neg hv]
      rw [List.filter_cons_of_neg (by simp [hv])]
      exact ih repl hr hlen

/-- Writing back one spec group leaves every other spec's group of the port
untouched. -/
theorem replaceSpec_filter_other (s s' : ValueClass) (hss : s' ≠ s)
    (l repl : List Value) (hr : ∀ r ∈ repl, r.value_spec = s) :
    (replaceSpec s l repl).filter (fun v => decide (v.value_spec = s')) =
      l.filter (fun v => decide (v.value_spec = s')) := by
  induction l generalizing repl with
  | nil => rfl
  | cons v rest ih =>
    by_cases hv : v.value_spec = s
    · have hvs' : ¬ v.value_spec = s' := by rw [hv]; exact fun hh => hss hh.symm
      cases repl with
      | nil =>
        simp only [replaceSpec, if_pos hv]
        rw [List.filter_cons_of_neg (by simp [hvs']),
          List.filter_cons_of_neg (by simp [hvs'])]
        exact ih [] (by simp)
      | cons r rs =>
        have hrs' : ¬ r.value_spec = s' := by
          rw [hr r (by simp)]; exact fun hh => hss hh.symm
        simp only [replaceSpec, if_pos hv]
        rw [List.filter_cons_of_neg (by simp [hrs']),
          List.filter_cons_of_neg (by simp [hvs'])]
        exact ih rs (fun x hx => hr x (List.mem_cons_of_mem _ hx))
    · simp only [replaceSpec, if_neg hv]
      by_cases hv' : v.value_spec = s'
      · rw [List.filter_cons_of_pos (by simp [hv']),
          List.filter_cons_of_pos (by simp [hv'])]
        rw [ih repl hr]
      · rw [List.filter_cons_of_neg (by simp [hv']),
          List.filter_cons_of_neg (by simp [hv'])]
        exact ih repl hr

/-- Writing back a spec group preserves the positional spec layout of the
port's value list. -/
theorem replaceSpec_map_spec (s : ValueClass) (l repl : List Value)
    (hr : ∀ r ∈ repl, r.value_spec = s) :
    (replaceSpec s l repl).map Value.value_spec = l.map Value.value_spec := by
  induction l generalizing repl with
  | nil => rfl
  | cons v rest ih =>
    by_cases hv : v.value_spec = s
    · cases repl with
      | nil =>
        simp only [replaceSpec, if_pos hv]
        simp [ih [] (by simp)]
      | cons r rs =>
        simp only [replaceSpec, if_pos hv]
        simp only [List.map_cons]
        rw [hr r (by simp), hv,
          ih rs (fun x hx => hr x (List.mem_cons_of_mem _ hx))]
    · simp only [replaceSpec, if_neg hv]
      simp [ih repl hr]

/-- Every value of a spec group carries that spec. -/
theorem groupFor_spec (p : Port) (s : ValueClass) :
    ∀ v ∈ p.groupFor s, v.value_spec = s := by
  intro v hv
  simp only [Port.groupFor, List.mem_filter, decide_eq_true_eq] at hv
  exact hv.2

/-- `propagateZip` keeps every value inside its spec group. -/
theorem propagateZip_mem_spec (gos gis : List Value) (s : ValueClass)
    (ho : ∀ v ∈ gos, v.value_spec = s) (hi : ∀ v ∈ gis, v.value_spec = s) :
    (∀ v ∈ (propagateZip gos gis).1, v.value_spec = s) ∧
    (∀ v ∈ (propagateZip gos gis).2.1, v.value_spec = s) := by
  have hmap := propagateZip_specs gos gis
  constructor
  · intro v hv
    have hv' : v.value_spec ∈ (propagateZip gos gis).1.map Value.value_spec :=
      List.mem_map_of_mem _ hv
    rw [hmap.1] at hv'
    rcases List.mem_map.mp hv' with ⟨w, hw, hws⟩
    rw [← hws]; exact ho w hw
  · intro v hv
    have hv' : v.value_spec ∈ (propagateZip gos gis).2.1.map Value.value_spec :=
      List.mem_map_of_mem _ hv
    rw [hmap.2] at hv'
    rcases List.mem_map.mp hv' with ⟨w, hw, hws⟩
    rw [← hws]; exact hi w hw

/-- `propagateZip` preserves the lengths of both group lists. -/
theorem propagateZip_length (gos gis : List Value) :
    (propagateZip gos gis).1.length = gos.length ∧
    (propagateZip gos gis).2.1.length = gis.length := by
  have hmap := propagateZip_specs gos gis
  constructor
  · have := congrArg List.length hmap.1
    simpa using this
  · have := congrArg List.length hmap.2
    simpa using this

/-- Characterization of a fully successful outer `propagate` loop over a
duplicate-free spec list with matched multiplicities: no exception, the
positional spec layout of both ports is preserved, every listed spec's
group is mapped pairwise by the propagation body, and every other value is
untouched. -/
theorem propagateSpecs_ok (specs : List ValueClass) (pOut pIn : Port)
    (hnd : specs.Nodup)
    (hlen : ∀ s ∈ specs, (pOut.groupFor s).length = (pIn.groupFor s).length)
    (hok : ∀ s ∈ specs, ∀ p ∈ (pOut.groupFor s).zip (pIn.groupFor s),
      (propagatePair p.1 p.2).2.2 = none) :
    (propagateSpecs specs pOut pIn).2.2 = none ∧
    ((propagateSpecs specs pOut pIn).1.values.map Value.value_spec
      = pOut.values.map Value.value_spec) ∧
    ((propagateSpecs specs pOut pIn).2.1.values.map Value.value_spec
      = pIn.values.map Value.value_spec) ∧
    (∀ s ∈ specs,
      (propagateSpecs specs pOut pIn).1.groupFor s =
        ((pOut.groupFor s).zip (pIn.groupFor s)).map
          (fun p => (propagatePair p.1 p.2).1) ∧
      (propagateSpecs specs pOut pIn).2.1.groupFor s =
        ((pOut.groupFor s).zip (pIn.groupFor s)).map
          (fun p => (propagatePair p.1 p.2).2.1)) ∧
    (∀ s, s ∉ specs →
      (propagateSpecs specs pOut pIn).1.groupFor s = pOut.groupFor s ∧
      (propagateSpecs specs pOut pIn).2.1.groupFor s = pIn.groupFor s) := by
  induction specs generalizing pOut pIn with
  | nil => simp [propagateSpecs]
  | cons s rest ih =>
    have hndr := List.nodup_cons.mp hnd
    have hsl := hlen s (by simp)
    have hso := hok s (by simp)
    rcases hzip : propagateZip (pOut.groupFor s) (pIn.groupFor s) with ⟨go', gi', e⟩
    have hzeq := propagateZip_ok _ _ hsl hso
    rw [hzip] at hzeq
    have hgo' : go' = ((pOut.groupFor s).zip (pIn.groupFor s)).map
        (fun p => (propagatePair p.1 p.2).1) := congrArg Prod.fst hzeq
    have hrest := congrArg Prod.snd hzeq
    have hgi' : gi' = ((pOut.groupFor s).zip (pIn.groupFor s)).map
        (fun p => (propagatePair p.1 p.2).2.1) := congrArg Prod.fst hrest
    have he : e = none := congrArg Prod.snd hrest
    subst he
    have hgoS : ∀ r ∈ go', r.value_spec = s := by
      have := (propagateZip_mem_spec _ _ s (groupFor_spec pOut s)
        (groupFor_spec pIn s)).1
      rw [hzip] at this; exact this
    have hgiS : ∀ r ∈ gi', r.value_spec = s := by
      have := (propagateZip_mem_spec _ _ s (groupFor_spec pOut s)
        (groupFor_spec pIn s)).2
      rw [hzip] at this; exact this
    have hgoLen : go'.length = (pOut.groupFor s).length := by
      have := (propagateZip_length (pOut.groupFor s) (pIn.groupFor s)).1
      rw [hzip] at this; exact this
    have hgiLen : gi'.length = (pIn.groupFor s).length := by
      have := (propagateZip_length (pOut.groupFor s) (pIn.groupFor s)).2
      rw [hzip] at this; exact this
    set pOut' : Port := { pOut with values := replaceSpec s pOut.values go' }
      with hpOut'
    set pIn' : Port := { pIn with values := replaceSpec s pIn.values gi' }
      with hpIn'
    have hstep : propagateSpecs (s :: rest) pOut pIn
        = propagateSpecs rest pOut' pIn' := by
      rw [propagateSpecs, hzip]
    rw [hstep]
    have A1 : pOut'.groupFor s = go' :=
      replaceSpec_filter_self s pOut.values go' hgoS hgoLen
    have B1 : pIn'.groupFor s = gi' :=
      replaceSpec_filter_self s pIn.values gi' hgiS hgiLen
    have A2 : ∀ s', s' ≠ s → pOut'.groupFor s' = pOut.groupFor s' :=
      fun s' hs' => replaceSpec_filter_other s s' hs' pOut.values go' hgoS
    have B2 : ∀ s', s' ≠ s → pIn'.groupFor s' = pIn.groupFor s' :=
      fun s' hs' => replaceSpec_filter_other s s' hs' pIn.values gi' hgiS
    have A3 : pOut'.values.map Value.value_spec
        = pOut.values.map Value.value_spec :=
      replaceSpec_map_spec s pOut.values go' hgoS
    have B3 : pIn'.values.map Value.value_spec
        = pIn.values.map Value.value_spec :=
      replaceSpec_map_spec s pIn.values gi' hgiS
    have hlen' : ∀ s' ∈ rest,
        (pOut'.groupFor s').length = (pIn'.groupFor s').length := by
      intro s' hs'
      have hne : s' ≠ s := fun hh => hndr.1 (hh ▸ hs')
      rw [A2 s' hne, B2 s' hne]
      exact hlen s' (by simp [hs'])
    have hok' : ∀ s' ∈ rest, ∀ p ∈ (pOut'.groupFor s').zip (pIn'.groupFor s'),
        (propagatePair p.1 p.2).2.2 = none := by
      intro s' hs'
      have hne : s' ≠ s := fun hh => hndr.1 (hh ▸ hs')
      rw [A2 s' hne, B2 s' hne]
      exact hok s' (by simp [hs'])
    obtain ⟨ihe, ihmo, ihmi, ihmem, ihnot⟩ := ih pOut' pIn' hndr.2 hlen' hok'
    refine ⟨ihe, by rw [ihmo, A3], by rw [ihmi, B3], ?_, ?_⟩
    · intro s'' hs''
      rcases List.mem_cons.mp hs'' with rfl | hsr
      · have hfin := ihnot s'' hndr.1
        exact ⟨by rw [hfin.1, A1]; exact hgo', by rw [hfin.2, B1]; exact hgi'⟩
      · have hne : s'' ≠ s := fun hh => hndr.1 (hh ▸ hsr)
        have hmem := ihmem s'' hsr
        rw [A2 s'' hne, B2 s'' hne] at hmem
        exact hmem
    · intro s'' hs''
      have hne : s'' ≠ s := fun hh => hs'' (by simp [hh])
      have hnr : s'' ∉ rest := fun hh => hs'' (by simp [hh])
      have hfin := ihnot s'' hnr
      rw [A2 s'' hne, B2 s'' hne] at hfin
      exact hfin

/-- If the outer `propagate` loop over a duplicate-free spec list raised no
exception, then no single pair of any listed spec raised one. -/
theorem propagateSpecs_err_extraction (specs : List ValueClass)
    (pOut pIn : Port) (hnd : specs.Nodup)
    (h : (propagateSpecs specs pOut pIn).2.2 = none) :
    ∀ s ∈ specs, ∀ p ∈ (pOut.groupFor s).zip (pIn.groupFor s),
      (propagatePair p.1 p.2).2.2 = none := by
  induction specs generalizing pOut pIn with
  | nil => intro s hs; simp at hs
  | cons s rest ih =>
    have hndr := List.nodup_cons.mp hnd
    rcases hzip : propagateZip (pOut.groupFor s) (pIn.groupFor s) with ⟨go', gi', e⟩
    cases e with
    | some err =>
      rw [propagateSpecs, hzip] at h
      simp at h
    | none =>
      have hstep : propagateSpecs (s :: rest) pOut pIn
          = propagateSpecs rest
              { pOut with values := replaceSpec s pOut.values go' }
              { pIn with values := replaceSpec s pIn.values gi' } := by
        rw [propagateSpecs, hzip]
      rw [hstep] at h
      have hgoS : ∀ r ∈ go', r.value_spec = s := by
        have := (propagateZip_mem_spec _ _ s (groupFor_spec pOut s)
          (groupFor_spec pIn s)).1
        rw [hzip] at this; exact this
      have hgiS : ∀ r ∈ gi', r.value_spec = s := by
        have := (propagateZip_mem_spec _ _ s (groupFor_spec pOut s)
          (groupFor_spec pIn s)).2
        rw [hzip] at this; exact this
      intro s' hs'
      rcases List.mem_cons.mp hs' with rfl | hsr
      · exact propagateZip_err_none _ _ (by rw [hzip])
      · have hne : s' ≠ s := fun hh => hndr.1 (hh ▸ hsr)
        have hres := ih _ _ hndr.2 h s' hsr
        rw [show ({ pOut with values := replaceSpec s pOut.values go' } :
              Port).groupFor s' = pOut.groupFor s' from
            replaceSpec_filter_other s s' hne pOut.values go' hgoS,
          show ({ pIn with values := replaceSpec s pIn.values gi' } :
              Port).groupFor s' = pIn.groupFor s' from
            replaceSpec_filter_other s s' hne pIn.values gi' hgiS] at hres
        exact hres

/-- A dict built by successive key insertions has duplicate-free keys. -/
theorem insertSpec_nodup (acc : List ValueClass) (s : ValueClass)
    (h : acc.Nodup) : (insertSpec acc s).Nodup := by
  unfold insertSpec
  split
  · exact h
  · rename_i hs
    rw [List.nodup_append]
    refine ⟨h, List.nodup_singleton s, ?_⟩
    intro a ha hb
    simp only [List.mem_singleton] at hb
    subst hb
    exact hs ha

/-- Folding dict insertion over any list keeps the key list
duplicate-free. -/
theorem foldl_insertSpec_nodup (l : List ValueClass) (acc : List ValueClass)
    (h : acc.Nodup) : (l.foldl insertSpec acc).Nodup := by
  induction l generalizing acc with
  | nil => simpa using h
  | cons s rest ih => exact ih _ (insertSpec_nodup acc s h)

/-- The shared-spec list iterated by `propagate` is duplicate-free. -/
theorem sharedSpecs_nodup (pOut pIn : Port) : (sharedSpecs pOut pIn).Nodup :=
  List.Nodup.filter _ (foldl_insertSpec_nodup _ [] List.nodup_nil)

/-- A propagation pair raises no exception as soon as the copied payload (in
whichever direction the status gate selects) passes the receiver's bounds
validation. -/
theorem propagatePair_err_none (v_out v_in : Value)
    (h1 : (v_out.status = .calculated ∨ v_out.status = .fixed) →
      v_in.status = .depend → v_in.validate_value v_out.val = none)
    (h2 : (v_in.status = .calculated ∨ v_in.status = .fixed) →
      v_out.status = .depend → v_out.validate_value v_in.val = none) :
    (propagatePair v_out v_in).2.2 = none := by
  unfold propagatePair
  split
  · rename_i hc
    exact (Value.update_err_iff v_in v_out.val (some .depend)).mpr
      (h1 hc.1 hc.2)
  · split
    · rename_i hc
      exact (Value.update_err_iff v_out v_in.val (some .depend)).mpr
        (h2 hc.1 hc.2)
    · rfl

/-- C1 (amended): for a connection whose `validate` succeeds, `propagate`
pairs the two ports' values of each shared spec positionally; provided every
copied payload passes the receiving value's bounds validation, no exception
is raised, each shared spec's pairs are rewritten by the per-pair gate and
every other value stays untouched.  The per-pair gate: source
`Calculated`/`Fixed` with destination `Depend` copies the source payload and
keeps the destination status `Depend` (source untouched); symmetrically in
the mirrored case; any other status combination leaves both values exactly
unchanged — two `Fixed`/`Calculated` ends never overwrite each other. -/
theorem connection_propagate_pairs (pOut pIn : Port)
    (hv : Connection.validatePorts pOut pIn = true)
    (hbounds : ∀ s ∈ sharedSpecs pOut pIn,
      ∀ p ∈ (pOut.groupFor s).zip (pIn.groupFor s),
        ((p.1.status = .calculated ∨ p.1.status = .fixed) →
          p.2.status = .depend → p.2.validate_value p.1.val = none) ∧
        ((p.2.status = .calculated ∨ p.2.status = .fixed) →
          p.1.status = .depend → p.1.validate_value p.2.val = none)) :
    (Connection.propagate pOut pIn).2.2 = none ∧
    (∀ s ∈ sharedSpecs pOut pIn,
      (Connection.propagate pOut pIn).1.groupFor s =
        ((pOut.groupFor s).zip (pIn.groupFor s)).map
          (fun p => (propagatePair p.1 p.2).1) ∧
      (Connection.propagate pOut pIn).2.1.groupFor s =
        ((pOut.groupFor s).zip (pIn.groupFor s)).map
          (fun p => (propagatePair p.1 p.2).2.1)) ∧
    (∀ s, s ∉ sharedSpecs pOut pIn →
      (Connection.propagate pOut pIn).1.groupFor s = pOut.groupFor s ∧
      (Connection.propagate pOut pIn).2.1.groupFor s = pIn.groupFor s) ∧
    (∀ v_out v_in : Value,
      ((v_out.status = .calculated ∨ v_out.status = .fixed) →
        v_in.status = .depend → v_in.validate_value v_out.val = none →
        (propagatePair v_out v_in).2.2 = none ∧
        (propagatePair v_out v_in).1 = v_out ∧
        (propagatePair v_out v_in).2.1.val = v_out.val ∧
        (propagatePair v_out v_in).2.1.status = .depend) ∧
      ((v_in.status = .calculated ∨ v_in.status = .fixed) →
        v_out.status = .depend → v_out.validate_value v_in.val = none →
        (propagatePair v_out v_in).2.2 = none ∧
        (propagatePair v_out v_in).2.1 = v_in ∧
        (propagatePair v_out v_in).1.val = v_in.val ∧
        (propagatePair v_out v_in).1.status = .depend) ∧
      (¬ ((v_out.status = .calculated ∨ v_out.status = .fixed) ∧
          v_in.status = .depend) →
        ¬ ((v_in.status = .calculated ∨ v_in.status = .fixed) ∧
          v_out.status = .depend) →
        propagatePair v_out v_in = (v_out, v_in, none))) := by
  obtain ⟨hsub1, hsub2, hmul⟩ := of_decide_eq_true hv
  have hlen : ∀ s ∈ sharedSpecs pOut pIn,
      (pOut.groupFor s).length = (pIn.groupFor s).length := by
    intro s hs
    exact hmul s (List.mem_filter.mp hs).1
  have hok : ∀ s ∈ sharedSpecs pOut pIn,
      ∀ p ∈ (pOut.groupFor s).zip (pIn.groupFor s),
        (propagatePair p.1 p.2).2.2 = none := by
    intro s hs p hp
    exact propagatePair_err_none p.1 p.2 ((hbounds s hs p hp).1)
      ((hbounds s hs p hp).2)
  obtain ⟨h1, _, _, h4, h5⟩ := propagateSpecs_ok (sharedSpecs pOut pIn)
    pOut pIn (sharedSpecs_nodup pOut pIn) hlen hok
  refine ⟨h1, h4, h5, ?_⟩
  intro v_out v_in
  refine ⟨?_, ?_, ?_⟩
  · intro hst hdep hval
    have hcond : (v_out.status = .calculated ∨ v_out.status = .fixed) ∧
        v_in.status = .depend := ⟨hst, hdep⟩
    have hupd := Value.update_of_validate v_in v_out.val (some .depend) hval
    simp only [propagatePair, if_pos hcond]
    exact ⟨hupd.1, trivial, hupd.2.1, hupd.2.2.1⟩
  · intro hst hdep hval
    have hcond1 : ¬ ((v_out.status = .calculated ∨ v_out.status = .fixed) ∧
        v_in.status = .depend) := by
      rintro ⟨hc, -⟩
      rcases hc with hc | hc <;> rw [hdep] at hc <;> exact absurd hc (by simp)
    have hcond2 : (v_in.status = .calculated ∨ v_in.status = .fixed) ∧
        v_out.status = .depend := ⟨hst, hdep⟩
    have hupd := Value.update_of_validate v_out v_in.val (some .depend) hval
    simp only [propagatePair, if_neg hcond1, if_pos hcond2]
    exact ⟨hupd.1, trivial, hupd.2.1, hupd.2.2.1⟩
  · intro hc1 hc2
    simp only [propagatePair, if_neg hc1, if_neg hc2]

/-- Scenario A out-port: value `G` of spec `X`, status `Fixed`, payload 5. -/
def scenarioAOut : Port :=
  { name := "P",
    values := [{ name := "G", value_spec := ⟨some "X", none, none⟩,
                 val := some 5, status := ValueStatus.fixed,
                 store_prev := true, prev_val := none, prev_status := none,
                 min_value := none, max_value := none }] }

/-- Scenario A in-port: value `G` of the same spec `X`, status `Depend`. -/
def scenarioAIn : Port :=
  { name := "Q",
    values := [{ name := "G", value_spec := ⟨some "X", none, none⟩,
                 val := none, status := ValueStatus.depend,
                 store_prev := true, prev_val := none, prev_status := none,
                 min_value := none, max_value := none }] }

/-- Witness for C1 (amended) at Scenario A, together with the concrete
Scenario A outcome: the destination value gets payload 5, status `Depend`. -/
theorem connection_propagate_pairs_witness :
    ((Connection.propagate scenarioAOut scenarioAIn).2.2 = none ∧
    (∀ s ∈ sharedSpecs scenarioAOut scenarioAIn,
      (Connection.propagate scenarioAOut scenarioAIn).1.groupFor s =
        ((scenarioAOut.groupFor s).zip (scenarioAIn.groupFor s)).map
          (fun p => (propagatePair p.1 p.2).1) ∧
      (Connection.propagate scenarioAOut scenarioAIn).2.1.groupFor s =
        ((scenarioAOut.groupFor s).zip (scenarioAIn.groupFor s)).map
          (fun p => (propagatePair p.1 p.2).2.1)) ∧
    (∀ s, s ∉ sharedSpecs scenarioAOut scenarioAIn →
      (Connection.propagate scenarioAOut scenarioAIn).1.groupFor s =
        scenarioAOut.groupFor s ∧
      (Connection.propagate scenarioAOut scenarioAIn).2.1.groupFor s =
        scenarioAIn.groupFor s) ∧
    (∀ v_out v_in : Value,
      ((v_out.status = .calculated ∨ v_out.status = .fixed) →
        v_in.status = .depend → v_in.validate_value v_out.val = none →
        (propagatePair v_out v_in).2.2 = none ∧
        (propagatePair v_out v_in).1 = v_out ∧
        (propagatePair v_out v_in).2.1.val = v_out.val ∧
        (propagatePair v_out v_in).2.1.status = .depend) ∧
      ((v_in.status = .calculated ∨ v_in.status = .fixed) →
        v_out.status = .depend → v_out.validate_value v_in.val = none →
        (propagatePair v_out v_in).2.2 = none ∧
        (propagatePair v_out v_in).2.1 = v_in ∧
        (propagatePair v_out v_in).1.val = v_in.val ∧
        (propagatePair v_out v_in).1.status = .depend) ∧
      (¬ ((v_out.status = .calculated ∨ v_out.status = .fixed) ∧
          v_in.status = .depend) →
        ¬ ((v_in.status = .calculated ∨ v_in.status = .fixed) ∧
          v_out.status = .depend) →
        propagatePair v_out v_in = (v_out, v_in, none)))) ∧
    (Connection.propagate scenarioAOut scenarioAIn).2.1.values.map
      Value.val = [some 5] ∧
    (Connection.propagate scenarioAOut scenarioAIn).2.1.values.map
      Value.status = [ValueStatus.depend] :=
  ⟨connection_propagate_pairs scenarioAOut scenarioAIn (by decide)
    (by decide), by decide, by decide⟩

/-- C1 (counterexample): the claim promises the copy unconditionally for a
`Fixed`/`Depend` pair of a validated connection, but a destination bound can
reject the copied payload: here the destination has `max_value = 3`, the
source is `Fixed` with payload 5, `validate` succeeds, yet `propagate`
raises the bounds error and the destination payload stays absent instead of
becoming 5. -/
theorem connection_propagate_bounds_counterexample :
    let po : Port :=
      { name := "P",
        values := [{ name := "G", value_spec := ⟨some "X", none, none⟩,
                     val := some 5, status := ValueStatus.fixed,
                     store_prev := true, prev_val := none, prev_status := none,
                     min_value := none, max_value := none }] }
    let qi : Port :=
      { name := "Q",
        values := [{ name := "G", value_spec := ⟨some "X", none, none⟩,
                     val := none, status := ValueStatus.depend,
                     store_prev := true, prev_val := none, prev_status := none,
                     min_value := none, max_value := some 3 }] }
    Connection.validatePorts po qi = true ∧
    (Connection.propagate po qi).2.2.isSome = true ∧
    (Connection.propagate po qi).2.1.values.map Value.val = [none] ∧
    ¬ (Connection.propagate po qi).2.1.values.map Value.val = [some 5] := by
  decide

/-- Once a pair has propagated without an exception, running the pair body
again raises nothing and leaves both payloads and both statuses exactly as
after the first run. -/
theorem propagatePair_idem (v_out v_in : Value)
    (h : (propagatePair v_out v_in).2.2 = none) :
    (propagatePair (propagatePair v_out v_in).1
        (propagatePair v_out v_in).2.1).2.2 = none ∧
    (propagatePair (propagatePair v_out v_in).1
        (propagatePair v_out v_in).2.1).1.val
      = (propagatePair v_out v_in).1.val ∧
    (propagatePair (propagatePair v_out v_in).1
        (propagatePair v_out v_in).2.1).1.status
      = (propagatePair v_out v_in).1.status ∧
    (propagatePair (propagatePair v_out v_in).1
        (propagatePair v_out v_in).2.1).2.1.val
      = (propagatePair v_out v_in).2.1.val ∧
    (propagatePair (propagatePair v_out v_in).1
        (propagatePair v_out v_in).2.1).2.1.status
      = (propagatePair v_out v_in).2.1.status := by
  by_cases hc1 : (v_out.status = .calculated ∨ v_out.status = .fixed) ∧
      v_in.status = .depend
  · have herr : (v_in.update v_out.val (some .depend)).2 = none := by
      simpa only [propagatePair, if_pos hc1] using h
    have hval := (Value.update_err_iff v_in v_out.val (some .depend)).mp herr
    have hupd := Value.update_of_validate v_in v_out.val (some .depend) hval
    have hc1' : (v_out.status = .calculated ∨ v_out.status = .fixed) ∧
        (v_in.update v_out.val (some .depend)).1.status = .depend :=
      ⟨hc1.1, hupd.2.2.1⟩
    have hval' : (v_in.update v_out.val (some .depend)).1.validate_value
        v_out.val = none := by
      rw [Value.validate_value_congr v_in
        (v_in.update v_out.val (some ValueStatus.depend)).1 v_out.val
        hupd.2.2.2.2.2.2.1 hupd.2.2.2.2.2.2.2]
      exact hval
    have hupd' := Value.update_of_validate
      (v_in.update v_out.val (some .depend)).1 v_out.val (some .depend) hval'
    simp only [propagatePair, if_pos hc1, if_pos hc1']
    refine ⟨hupd'.1, trivial, trivial, ?_, ?_⟩
    · rw [hupd'.2.1, hupd.2.1]
    · rw [hupd'.2.2.1]
      simp only [Option.getD_some]
      exact hupd.2.2.1.symm
  · by_cases hc2 : (v_in.status = .calculated ∨ v_in.status = .fixed) ∧
        v_out.status = .depend
    · have herr : (v_out.update v_in.val (some .depend)).2 = none := by
        simpa only [propagatePair, if_neg hc1, if_pos hc2] using h
      have hval := (Value.update_err_iff v_out v_in.val (some .depend)).mp herr
      have hupd := Value.update_of_validate v_out v_in.val (some .depend) hval
      have hc1' : ¬ (((v_out.update v_in.val (some .depend)).1.status
            = ValueStatus.calculated ∨
          (v_out.update v_in.val (some .depend)).1.status
            = ValueStatus.fixed) ∧
          v_in.status = .depend) := by
        rintro ⟨hcc, -⟩
        have hst : (v_out.update v_in.val (some .depend)).1.status
            = ValueStatus.depend := hupd.2.2.1
        rcases hcc with hcc | hcc <;> rw [hst] at hcc <;>
          exact absurd hcc (by simp)
      have hc2' : (v_in.status = .calculated ∨ v_in.status = .fixed) ∧
          (v_out.update v_in.val (some .depend)).1.status = .depend :=
        ⟨hc2.1, hupd.2.2.1⟩
      have hval' : (v_out.update v_in.val (some .depend)).1.validate_value
          v_in.val = none := by
        rw [Value.validate_value_congr v_out
          (v_out.update v_in.val (some ValueStatus.depend)).1 v_in.val
          hupd.2.2.2.2.2.2.1 hupd.2.2.2.2.2.2.2]
        exact hval
      have hupd' := Value.update_of_validate
        (v_out.update v_in.val (some .depend)).1 v_in.val (some .depend) hval'
      simp only [propagatePair, if_neg hc1, if_pos hc2, if_neg hc1',
        if_pos hc2']
      refine ⟨hupd'.1, ?_, ?_, trivial, trivial⟩
      · rw [hupd'.2.1, hupd.2.1]
      · rw [hupd'.2.2.1]
        simp only [Option.getD_some]
        exact hupd.2.2.1.symm
    · simp only [propagatePair, if_neg hc1, if_neg hc2]
      exact ⟨trivial, trivial, trivial, trivial, trivial⟩

/-- The dict key order of `_collect_by_spec` depends only on the positional
spec layout of the port. -/
theorem Port.specs_congr (p q : Port)
    (h : p.values.map Value.value_spec = q.values.map Value.value_spec) :
    p.specs = q.specs := by
  unfold Port.specs firstDedup
  rw [h]

/-- The shared-spec list depends only on the two ports' spec layouts. -/
theorem sharedSpecs_congr (p q p' q' : Port)
    (hp : p'.specs = p.specs) (hq : q'.specs = q.specs) :
    sharedSpecs p' q' = sharedSpecs p q := by
  unfold sharedSpecs
  rw [hp, hq]

/-- Two value lists with the same positional spec layout and, spec by spec,
the same payload/status projections of their groups have the same
payload/status projections overall. -/
theorem map_projection_eq_of_groups (l₁ l₂ : List Value)
    (hspec : l₁.map Value.value_spec = l₂.map Value.value_spec)
    (hg : ∀ s : ValueClass,
      (l₁.filter (fun v => decide (v.value_spec = s))).map
        (fun v => (v.val, v.status)) =
      (l₂.filter (fun v => decide (v.value_spec = s))).map
        (fun v => (v.val, v.status))) :
    l₁.map (fun v => (v.val, v.status))
      = l₂.map (fun v => (v.val, v.status)) := by
  induction l₁ generalizing l₂ with
  | nil =>
    cases l₂ with
    | nil => rfl
    | cons w t => simp at hspec
  | cons v t ih =>
    cases l₂ with
    | nil => simp at hspec
    | cons w t₂ =>
      simp only [List.map_cons, List.cons.injEq] at hspec
      have hs0 := hg v.value_spec
      rw [List.filter_cons_of_pos (by simp),
        List.filter_cons_of_pos (by simp [hspec.1.symm])] at hs0
      simp only [List.map_cons, List.cons.injEq] at hs0
      have htail : ∀ s : ValueClass,
          (t.filter (fun x => decide (x.value_spec = s))).map
            (fun x => (x.val, x.status)) =
          (t₂.filter (fun x => decide (x.value_spec = s))).map
            (fun x => (x.val, x.status)) := by
        intro s
        by_cases hv : v.value_spec = s
        · have hws : w.value_spec = s := hspec.1 ▸ hv
          have := hg s
          rw [List.filter_cons_of_pos (by simp [hv]),
            List.filter_cons_of_pos (by simp [hws])] at this
          simp only [List.map_cons, List.cons.injEq] at this
          exact this.2
        · have hws : ¬ w.value_spec = s := fun hh => hv (hspec.1 ▸ hh)
          have := hg s
          rw [List.filter_cons_of_neg (by simp [hv]),
            List.filter_cons_of_neg (by simp [hws])] at this
          exact this
      simp only [List.map_cons]
      rw [hs0.1, ih t₂ hspec.2 htail]

/-- Map congruence on members, used to compare the two propagation passes
group by group. -/
theorem map_congr_mem {α β : Type} (l : List α) (f g : α → β)
    (h : ∀ a ∈ l, f a = g a) : l.map f = l.map g := by
  induction l with
  | nil => rfl
  | cons a t ih =>
    simp only [List.map_cons]
    rw [h a (by simp), ih (fun b hb => h b (List.mem_cons_of_mem _ hb))]

/-- C2: for a connection whose `validate` succeeds, `propagate` is
idempotent on the observable port state: after a first `propagate` call that
raises nothing (and `propagate` never changes a status — a copy rewrites a
`Depend` destination to `Depend`), a second call raises nothing and changes
no contained value's payload and no contained value's status on either
port. -/
theorem connection_propagate_idempotent (pOut pIn : Port)
    (hv : Connection.validatePorts pOut pIn = true)
    (hok : (Connection.propagate pOut pIn).2.2 = none) :
    (Connection.propagate (Connection.propagate pOut pIn).1
        (Connection.propagate pOut pIn).2.1).2.2 = none ∧
    ((Connection.propagate (Connection.propagate pOut pIn).1
        (Connection.propagate pOut pIn).2.1).1.values.map
        (fun v => (v.val, v.status))
      = (Connection.propagate pOut pIn).1.values.map
        (fun v => (v.val, v.status))) ∧
    ((Connection.propagate (Connection.propagate pOut pIn).1
        (Connection.propagate pOut pIn).2.1).2.1.values.map
        (fun v => (v.val, v.status))
      = (Connection.propagate pOut pIn).2.1.values.map
        (fun v => (v.val, v.status))) := by
  obtain ⟨hsub1, hsub2, hmul⟩ := of_decide_eq_true hv
  have hnd := sharedSpecs_nodup pOut pIn
  have hlen : ∀ s ∈ sharedSpecs pOut pIn,
      (pOut.groupFor s).length = (pIn.groupFor s).length :=
    fun s hs => hmul s (List.mem_filter.mp hs).1
  have hpair := propagateSpecs_err_extraction (sharedSpecs pOut pIn)
    pOut pIn hnd hok
  obtain ⟨h1e, h1mo, h1mi, h1mem, h1not⟩ :=
    propagateSpecs_ok (sharedSpecs pOut pIn) pOut pIn hnd hlen hpair
  unfold Connection.propagate
  have hspec_eq : sharedSpecs
      (propagateSpecs (sharedSpecs pOut pIn) pOut pIn).1
      (propagateSpecs (sharedSpecs pOut pIn) pOut pIn).2.1
      = sharedSpecs pOut pIn :=
    sharedSpecs_congr pOut pIn _ _ (Port.specs_congr _ _ h1mo)
      (Port.specs_congr _ _ h1mi)
  rw [hspec_eq]
  have h2len : ∀ s ∈ sharedSpecs pOut pIn,
      (((propagateSpecs (sharedSpecs pOut pIn) pOut pIn).1.groupFor s).length)
      = (((propagateSpecs (sharedSpecs pOut pIn) pOut pIn).2.1.groupFor
            s).length) := by
    intro s hs
    rw [(h1mem s hs).1, (h1mem s hs).2]
    simp
  have h2ok : ∀ s ∈ sharedSpecs pOut pIn,
      ∀ p ∈ ((propagateSpecs (sharedSpecs pOut pIn) pOut pIn).1.groupFor
          s).zip
        ((propagateSpecs (sharedSpecs pOut pIn) pOut pIn).2.1.groupFor s),
        (propagatePair p.1 p.2).2.2 = none := by
    intro s hs p hp
    rw [(h1mem s hs).1, (h1mem s hs).2, List.zip_map'] at hp
    rcases List.mem_map.mp hp with ⟨q, hq, hqe⟩
    subst hqe
    exact (propagatePair_idem q.1 q.2 (hpair s hs q hq)).1
  obtain ⟨h2e, h2mo, h2mi, h2mem, h2not⟩ :=
    propagateSpecs_ok (sharedSpecs pOut pIn)
      (propagateSpecs (sharedSpecs pOut pIn) pOut pIn).1
      (propagateSpecs (sharedSpecs pOut pIn) pOut pIn).2.1 hnd h2len h2ok
  refine ⟨h2e, ?_, ?_⟩
  · apply map_projection_eq_of_groups _ _ h2mo
    intro s
    show ((propagateSpecs (sharedSpecs pOut pIn)
        (propagateSpecs (sharedSpecs pOut pIn) pOut pIn).1
        (propagateSpecs (sharedSpecs pOut pIn) pOut pIn).2.1).1.groupFor
          s).map (fun v => (v.val, v.status))
      = (((propagateSpecs (sharedSpecs pOut pIn) pOut pIn).1.groupFor s).map
          (fun v => (v.val, v.status)))
    by_cases hs : s ∈ sharedSpecs pOut pIn
    · rw [(h2mem s hs).1, (h1mem s hs).1, (h1mem s hs).2, List.zip_map']
      simp only [List.map_map]
      apply map_congr_mem
      intro q hq
      have hidem := propagatePair_idem q.1 q.2 (hpair s hs q hq)
      simp only [Function.comp]
      rw [Prod.ext_iff]
      exact ⟨hidem.2.1, hidem.2.2.1⟩
    · rw [(h2not s hs).1]
  · apply map_projection_eq_of_groups _ _ h2mi
    intro s
    show ((propagateSpecs (sharedSpecs pOut pIn)
        (propagateSpecs (sharedSpecs pOut pIn) pOut pIn).1
        (propagateSpecs (sharedSpecs pOut pIn) pOut pIn).2.1).2.1.groupFor
          s).map (fun v => (v.val, v.status))
      = (((propagateSpecs (sharedSpecs pOut pIn) pOut pIn).2.1.groupFor
          s).map (fun v => (v.val, v.status)))
    by_cases hs : s ∈ sharedSpecs pOut pIn
    · rw [(h2mem s hs).2, (h1mem s hs).1, (h1mem s hs).2, List.zip_map']
      simp only [List.map_map]
      apply map_congr_mem
      intro q hq
      have hidem := propagatePair_idem q.1 q.2 (hpair s hs q hq)
      simp only [Function.comp]
      rw [Prod.ext_iff]
      exact ⟨hidem.2.2.2.1, hidem.2.2.2.2⟩
    · rw [(h2not s hs).2]

/-- Witness for C2 at Scenario A: first propagation succeeds, the second
changes nothing observable. -/
theorem connection_propagate_idempotent_witness :
    (Connection.propagate (Connection.propagate scenarioAOut scenarioAIn).1
        (Connection.propagate scenarioAOut scenarioAIn).2.1).2.2 = none ∧
    ((Connection.propagate (Connection.propagate scenarioAOut scenarioAIn).1
        (Connection.propagate scenarioAOut scenarioAIn).2.1).1.values.map
        (fun v => (v.val, v.status))
      = (Connection.propagate scenarioAOut scenarioAIn).1.values.map
        (fun v => (v.val, v.status))) ∧
    ((Connection.propagate (Connection.propagate scenarioAOut scenarioAIn).1
        (Connection.propagate scenarioAOut scenarioAIn).2.1).2.1.values.map
        (fun v => (v.val, v.status))
      = (Connection.propagate scenarioAOut scenarioAIn).2.1.values.map
        (fun v => (v.val, v.status))) :=
  connection_propagate_idempotent scenarioAOut scenarioAIn (by decide)
    (by decide)

/-! ## ObjectRepository (`Core/ObjectRepository.py`)

The repository is generic in the source; it touches a stored object only
through `obj.name`, `type(obj).__name__` and `id(obj)`, so objects are
modelled by that projection (`RepoObj`).  Python `uuid.UUID` identifiers are
`Nat`s; `uuid4()` generation — which never collides — is modelled by the
repository's fresh counter.  Python dicts are association lists with
assignment replacing an existing key in place and appending otherwise. -/

/-- Dict lookup `d.get(k)`. -/
def alGet {α β : Type} [DecidableEq α] : List (α × β) → α → Option β
  | [], _ => none
  | kv :: rest, k => if kv.1 = k then some kv.2 else alGet rest k

/-- Dict assignment `d[k] = v`. -/
def alInsert {α β : Type} [DecidableEq α] : List (α × β) → α → β →
    List (α × β)
  | [], k, v => [(k, v)]
  | kv :: rest, k, v =>
    if kv.1 = k then (k, v) :: rest else kv :: alInsert rest k v

/-- Dict removal `d.pop(k)` (the caller checks presence for the raise). -/
def alErase {α β : Type} [DecidableEq α] : List (α × β) → α → List (α × β)
  | [], _ => []
  | kv :: rest, k => if kv.1 = k then alErase rest k else kv :: alErase rest k

theorem alGet_insert_self {α β : Type} [DecidableEq α] (l : List (α × β))
    (k : α) (v : β) : alGet (alInsert l k v) k = some v := by
  induction l with
  | nil => simp [alInsert, alGet]
  | cons kv rest ih =>
    by_cases h : kv.1 = k
    · simp [alInsert, alGet, h]
    · simp [alInsert, alGet, h, ih]

theorem alGet_insert_other {α β : Type} [DecidableEq α] (l : List (α × β))
    (k k' : α) (v : β) (hk : k' ≠ k) :
    alGet (alInsert l k v) k' = alGet l k' := by
  induction l with
  | nil =>
    have hkk : ¬ k = k' := fun hh => hk hh.symm
    simp [alInsert, alGet, hkk]
  | cons kv rest ih =>
    by_cases h : kv.1 = k
    · have hkk : ¬ k = k' := fun hh => hk hh.symm
      simp [alInsert, alGet, h, hkk]
    · simp only [alInsert, if_neg h]
      by_cases h' : kv.1 = k'
      · simp [alGet, h']
      · simp [alGet, h', ih]

theorem alGet_erase_self {α β : Type} [DecidableEq α] (l : List (α × β))
    (k : α) : alGet (alErase l k) k = none := by
  induction l with
  | nil => simp [alErase, alGet]
  | cons kv rest ih =>
    by_cases h : kv.1 = k
    · simp [alErase, h, ih]
    · simp [alErase, alGet, h, ih]

theorem alGet_erase_other {α β : Type} [DecidableEq α] (l : List (α × β))
    (k k' : α) (hk : k' ≠ k) :
    alGet (alErase l k) k' = alGet l k' := by
  induction l with
  | nil => simp [alErase]
  | cons kv rest ih =>
    by_cases h : kv.1 = k
    · have hkk : ¬ k = k' := fun hh => hk hh.symm
      simp [alErase, alGet, h, hkk, ih]
    · by_cases h' : kv.1 = k'
      · simp [alErase, alGet, h, h', hk, ih]
      · simp [alErase, alGet, h, h', ih]

/-- The projection of a stored object used by the repository: CPython
identity (`id(obj)`), `obj.name`, and `type(obj).__name__`. -/
structure RepoObj where
  objIdent : Nat
  name : String
  typeName : String
deriving DecidableEq, Repr

/-- `ObjectRepository`'s state: the four indices, the append-only ordered
list, the configured kind, the optional name suffix (source field
`_postfix`), and the fresh-identifier counter standing in for `uuid4()`. -/
structure ObjectRepository where
  repository : List (Nat × RepoObj)
  base_name_to_id : List (String × Nat)
  id_to_base_name : List (Nat × String)
  obj_to_id : List (Nat × Nat)
  obj_list : List (Nat × RepoObj)
  repository_type : String
  postfixName : Option String
  next_id : Nat
deriving DecidableEq, Repr

/-- `str.lower()`, character by character over the underlying list (the
repository compares only ASCII class/kind names; `String.toLower` itself is
avoided because its byte-position recursion does not reduce). -/
def lowerChar (c : Char) : Char :=
  if 'A' ≤ c ∧ c ≤ 'Z' then Char.ofNat (c.toNat + 32) else c

/-- `str.lower()` on a whole string. -/
def strToLower (s : String) : String :=
  ⟨s.data.map lowerChar⟩

/-- `ObjectRepository.__init__` (lines 7-18): only the kinds `'value'`,
`'port'` and `'element'` (compared after lowercasing) are accepted; any
other kind raises `ValueError`. -/
def mkObjectRepository (rep_type : String) (pf : Option String) :
    Except String ObjectRepository :=
  if ["value", "port", "element"].contains (strToLower rep_type) then
    .ok { repository := [], base_name_to_id := [], id_to_base_name := [],
          obj_to_id := [], obj_list := [],
          repository_type := strToLower rep_type,
          postfixName := pf, next_id := 0 }
  else .error "Некорректно задан тип хранилища"

/-- `str.endswith` on the underlying character lists. -/
def strEndsWith (s suf : String) : Bool :=
  decide (suf.data <:+ s.data)

/-- `name[:-n]`: drop the last `n` characters. -/
def strDropRight (s : String) (n : Nat) : String :=
  ⟨s.data.take (s.data.length - n)⟩

/-- `_generate_full_name` (lines 20-24): the suffix is joined when
`_postfix is not None` (an empty-string suffix still joins). -/
def ObjectRepository.generate_full_name (r : ObjectRepository)
    (base_name : String) : String :=
  match r.postfixName with
  | some p => base_name ++ "_" ++ p
  | none => base_name

/-- `_extract_base_name` (lines 26-29) on an explicit suffix: `if
self._postfix and name.endswith(f"_{self._postfix}")` — an empty-string
suffix is falsy and never stripped.  Shared with `Element`, whose port and
parameter repositories carry the element name as their suffix. -/
def extract_base_name_pf (pf : Option String) (name : String) : String :=
  match pf with
  | some p =>
    if p ≠ "" ∧ strEndsWith name ("_" ++ p) = true then
      strDropRight name (p.length + 1)
    else name
  | none => name

/-- `_extract_base_name` (lines 26-29). -/
def ObjectRepository.extract_base_name (r : ObjectRepository)
    (name : String) : String :=
  extract_base_name_pf r.postfixName name

/-- The mutation step of `register` once all validation passed: assign into
the four dict indices and append to the ordered list. -/
def ObjectRepository.commit (r : ObjectRepository) (obj : RepoObj) (i : Nat) :
    ObjectRepository :=
  { r with
    repository := alInsert r.repository i obj,
    base_name_to_id := alInsert r.base_name_to_id obj.name i,
    id_to_base_name := alInsert r.id_to_base_name i obj.name,
    obj_to_id := alInsert r.obj_to_id obj.objIdent i,
    obj_list := r.obj_list ++ [(i, obj)] }

/-- `register` (lines 41-53): type-membership check
(`type(obj).__name__.lower() == repository_type`), then
`_validate_base_name` (no underscore, base name free), then — only for an
explicitly supplied id — a uuid-collision check; a generated `uuid4()` id is
not checked.  Every raise happens before any mutation. -/
def ObjectRepository.register (r : ObjectRepository) (obj : RepoObj)
    (obj_id : Option Nat) : ObjectRepository × Option String :=
  if ¬ (strToLower obj.typeName = r.repository_type) then
    (r, some "object type not supported")
  else if '_' ∈ obj.name.data then
    (r, some "base name contains an underscore")
  else if (alGet r.base_name_to_id obj.name).isSome then
    (r, some "base name already registered")
  else
    match obj_id with
    | some i =>
      if (alGet r.repository i).isSome then (r, some "uuid already in use")
      else (r.commit obj i, none)
    | none =>
      ({ r.commit obj r.next_id with next_id := r.next_id + 1 }, none)

/-- `get_by_id` (lines 55-57). -/
def ObjectRepository.get_by_id (r : ObjectRepository) (obj_id : Nat) :
    Option RepoObj :=
  alGet r.repository obj_id

/-- `get_by_name` (lines 59-63): resolve the base name (full or base), then
`self.repository.get(obj_id) if obj_id else None`. -/
def ObjectRepository.get_by_name (r : ObjectRepository) (name : String) :
    Option RepoObj :=
  match alGet r.base_name_to_id (r.extract_base_name name) with
  | some i => alGet r.repository i
  | none => none

/-- `get_by_object` (lines 65-68): identity lookup. -/
def ObjectRepository.get_by_object (r : ObjectRepository) (obj : RepoObj) :
    Option RepoObj :=
  match alGet r.obj_to_id obj.objIdent with
  | some i => alGet r.repository i
  | none => none

/-- `remove` (lines 100-116): resolve `(obj_id, base_name)` from the
identifier; `if not obj_id or not base_name: return` returns silently when
either is missing — or when the base name is the empty string, which is
falsy in Python.  Then the object is popped from `repository`, the name
map, the id map and the identity map in that order (`_obj_list` is never
cleaned); each `dict.pop` without a default raises `KeyError` when its key
is absent, leaving the earlier pops committed. -/
def ObjectRepository.remove (r : ObjectRepository)
    (identifier : Nat ⊕ String) : ObjectRepository × Option String :=
  let resolved : Option Nat × Option String :=
    match identifier with
    | .inl i => (some i, alGet r.id_to_base_name i)
    | .inr s =>
      let b := r.extract_base_name s
      (alGet r.base_name_to_id b, some b)
  match resolved with
  | (some i, some b) =>
    if b = "" then (r, none)
    else
      match alGet r.repository i with
      | none => (r, some "KeyError")
      | some obj =>
        let r1 := { r with repository := alErase r.repository i }
        match alGet r1.base_name_to_id b with
        | none => (r1, some "KeyError")
        | some _ =>
          let r2 :=
            { r1 with base_name_to_id := alErase r1.base_name_to_id b }
          match alGet r2.id_to_base_name i with
          | none => (r2, some "KeyError")
          | some _ =>
            let r3 :=
              { r2 with id_to_base_name := alErase r2.id_to_base_name i }
            match alGet r3.obj_to_id obj.objIdent with
            | none => (r3, some "KeyError")
            | some _ =>
              ({ r3 with obj_to_id := alErase r3.obj_to_id obj.objIdent },
               none)
  | _ => (r, none)

/-- A name without an underscore never ends in `"_" ++ postfix`, so base-name
extraction returns it unchanged. -/
theorem extract_base_name_pf_of_no_underscore (pf : Option String)
    (s : String) (h : ¬ '_' ∈ s.data) : extract_base_name_pf pf s = s := by
  unfold extract_base_name_pf
  cases hp : pf with
  | none => rfl
  | some p =>
    by_cases hpe : p = ""
    · simp [hpe]
    · by_cases hsfx : strEndsWith s ("_" ++ p) = true
      · exfalso
        unfold strEndsWith at hsfx
        apply h
        apply (of_decide_eq_true hsfx).subset
        rw [String.data_append]
        simp
      · simp [hpe, hsfx]

/-- A name without an underscore is returned unchanged by the repository's
base-name extraction. -/
theorem extract_base_name_of_no_underscore (r : ObjectRepository)
    (s : String) (h : ¬ '_' ∈ s.data) : r.extract_base_name s = s :=
  extract_base_name_pf_of_no_underscore r.postfixName s h

/-- Extraction inverts full-name generation for a non-empty suffix. -/
theorem extract_base_name_full (r : ObjectRepository) (base p : String)
    (hp : r.postfixName = some p) (hpe : p ≠ "") :
    r.extract_base_name (base ++ "_" ++ p) = base := by
  have hstep : r.extract_base_name (base ++ "_" ++ p)
      = if p ≠ "" ∧ strEndsWith (base ++ "_" ++ p) ("_" ++ p) = true
        then strDropRight (base ++ "_" ++ p) (p.length + 1)
        else (base ++ "_" ++ p) := by
    unfold ObjectRepository.extract_base_name extract_base_name_pf
    rw [hp]
  have hsfx : strEndsWith (base ++ "_" ++ p) ("_" ++ p) = true := by
    unfold strEndsWith
    apply decide_eq_true
    rw [String.data_append, String.data_append, String.data_append,
      List.append_assoc]
    exact List.suffix_append _ _
  rw [hstep, if_pos ⟨hpe, hsfx⟩]
  unfold strDropRight
  have hdata : (base ++ "_" ++ p).data = (base.data ++ ['_']) ++ p.data := by
    rw [String.data_append, String.data_append]
  rw [hdata]
  have hlen : ((base.data ++ ['_']) ++ p.data).length - (p.length + 1)
      = base.data.length := by
    simp only [List.length_append, List.length_singleton]
    have : p.length = p.data.length := rfl
    omega
  rw [hlen, List.append_assoc, List.take_left]

theorem alGet_none_of_forall_ne {α β : Type} [DecidableEq α]
    (l : List (α × β)) (k : α) (h : ∀ kv ∈ l, kv.1 ≠ k) :
    alGet l k = none := by
  induction l with
  | nil => rfl
  | cons kv rest ih =>
    have hk := h kv (by simp)
    simp only [alGet, if_neg hk]
    exact ih (fun kv' hk' => h kv' (List.mem_cons_of_mem _ hk'))

theorem mem_alInsert {α β : Type} [DecidableEq α] (l : List (α × β))
    (k : α) (v : β) (kv' : α × β) (h : kv' ∈ alInsert l k v) :
    kv' ∈ l ∨ kv' = (k, v) := by
  induction l with
  | nil => simp [alInsert] at h; simp [h]
  | cons kv rest ih =>
    by_cases hk : kv.1 = k
    · simp only [alInsert, if_pos hk] at h
      rcases List.mem_cons.mp h with rfl | h
      · exact Or.inr rfl
      · exact Or.inl (List.mem_cons_of_mem _ h)
    · simp only [alInsert, if_neg hk] at h
      rcases List.mem_cons.mp h with rfl | h
      · exact Or.inl (by simp)
      · rcases ih h with h | h
        · exact Or.inl (List.mem_cons_of_mem _ h)
        · exact Or.inr h

theorem mem_alErase {α β : Type} [DecidableEq α] (l : List (α × β))
    (k : α) (kv' : α × β) (h : kv' ∈ alErase l k) : kv' ∈ l := by
  induction l with
  | nil => simp [alErase] at h
  | cons kv rest ih =>
    by_cases hk : kv.1 = k
    · simp only [alErase, if_pos hk] at h
      exact List.mem_cons_of_mem _ (ih h)
    · simp only [alErase, if_neg hk] at h
      rcases List.mem_cons.mp h with rfl | h
      · simp
      · exact List.mem_cons_of_mem _ (ih h)

/-! ## Scheme construction (`Scheme/Scheme.py`, claim C5) -/

/-- The repositories created by `Scheme.__init__` (lines 14-24); the graph
and the two derived indices start empty and are irrelevant here because
construction fails before they are populated. -/
structure SchemeRepos where
  name : String
  elements : ObjectRepository
  connections : ObjectRepository
deriving DecidableEq, Repr

/-- `Scheme.__init__`: an element repository of kind `"element"`, then a
connection repository of kind `"connection"`. -/
def schemeInit (name : String) : Except String SchemeRepos := do
  let elements ← mkObjectRepository "element" none
  let connections ← mkObjectRepository "connection" none
  return { name := name, elements := elements, connections := connections }

/-- C5: every attempt to construct a `Scheme` raises: the element repository
is accepted, but `ObjectRepository.__init__` rejects the kind
`"connection"`, so no `Scheme` instance is ever successfully
constructed. -/
theorem scheme_init_always_fails (name : String) :
    schemeInit name = .error "Некорректно задан тип хранилища" := rfl

/-- C10: with the name suffix `"_E1"` (repository `postfix` `"E1"`), a value
registered under the base name `"G"` resolves through `get_by_name` both as
`"G"` and as the full name `"G_E1"`. -/
theorem repository_suffix_lookup :
    let r0 : ObjectRepository :=
      { repository := [], base_name_to_id := [], id_to_base_name := [],
        obj_to_id := [], obj_list := [], repository_type := "value",
        postfixName := some "E1", next_id := 0 }
    let g : RepoObj := { objIdent := 7, name := "G", typeName := "Value" }
    (mkObjectRepository "value" (some "E1")).toOption = some r0 ∧
    r0.generate_full_name "G" = "G_E1" ∧
    (r0.register g none).2 = none ∧
    (r0.register g none).1.get_by_name "G" = some g ∧
    (r0.register g none).1.get_by_name "G_E1" = some g := by
  decide

/-- C8 (counterexample): the claim quantifies over every object, but an
object registered under the empty base name escapes removal: in `remove`,
Python's `if not obj_id or not base_name: return` treats the empty string as
falsy and returns silently, so `get_by_id` still finds the object. -/
theorem repository_remove_empty_name_counterexample :
    let r0 : ObjectRepository :=
      { repository := [], base_name_to_id := [], id_to_base_name := [],
        obj_to_id := [], obj_list := [], repository_type := "value",
        postfixName := none, next_id := 0 }
    let x : RepoObj := { objIdent := 1, name := "", typeName := "Value" }
    (r0.register x none).2 = none ∧
    ((r0.register x none).1.remove (Sum.inl 0)).2 = none ∧
    ((r0.register x none).1.remove (Sum.inl 0)).1.get_by_id 0 = some x ∧
    ¬ ((r0.register x none).1.remove (Sum.inl 0)).1.get_by_id 0 = none := by
  decide

/-- Looking up the suffixed full name of a base name that is absent from a
repository whose keys respect the no-underscore invariant yields nothing:
with no suffix or a non-empty suffix the lookup resolves to the absent base
name; with an empty suffix (falsy in Python, so never stripped) the looked-up
string itself contains an underscore and can never be a key. -/
theorem get_by_name_full_none (r2 : ObjectRepository) (base : String)
    (hb : ¬ '_' ∈ base.data)
    (hkeys : ∀ kv ∈ r2.base_name_to_id, ¬ '_' ∈ (Prod.fst kv).data)
    (hbase : alGet r2.base_name_to_id base = none) :
    r2.get_by_name (match r2.postfixName with
      | some p => base ++ "_" ++ p
      | none => base) = none := by
  unfold ObjectRepository.get_by_name
  cases hp : r2.postfixName with
  | none =>
    rw [extract_base_name_of_no_underscore _ _ hb, hbase]
  | some p =>
    by_cases hpe : p = ""
    · subst hpe
      have hfull_und : '_' ∈ (base ++ "_" ++ "").data := by
        rw [String.data_append, String.data_append]
        simp
      have hextract : r2.extract_base_name (base ++ "_" ++ "")
          = (base ++ "_" ++ "") := by
        unfold ObjectRepository.extract_base_name extract_base_name_pf
        rw [hp]
        simp
      rw [hextract]
      rw [alGet_none_of_forall_ne _ _ (fun kv hkv heq =>
        hkeys kv hkv (by rw [heq]; exact hfull_und))]
    · rw [extract_base_name_full r2 base p hp hpe, hbase]

/-- C8 (amended): in a repository whose registered base names respect the
no-underscore invariant, for every object `x` with a **non-empty** base
name, `register(x)` followed by `remove` of the generated identifier leaves
`get_by_id`, `get_by_name` (base and suffixed full name) and `get_by_object`
all absent, and a subsequent `register` of a same-named, same-typed object
succeeds.  (An empty base name escapes removal — see the
counterexample.) -/
theorem repository_register_remove_roundtrip (r : ObjectRepository)
    (x y : RepoObj)
    (hwf : ∀ kv ∈ r.base_name_to_id, ¬ '_' ∈ (Prod.fst kv).data)
    (hreg : (r.register x none).2 = none)
    (hx : x.name ≠ "")
    (hy : y.name = x.name) (hty : y.typeName = x.typeName) :
    ((r.register x none).1.remove (Sum.inl r.next_id)).2 = none ∧
    ((r.register x none).1.remove (Sum.inl r.next_id)).1.get_by_id
      r.next_id = none ∧
    ((r.register x none).1.remove (Sum.inl r.next_id)).1.get_by_name
      x.name = none ∧
    ((r.register x none).1.remove (Sum.inl r.next_id)).1.get_by_name
      (r.generate_full_name x.name) = none ∧
    ((r.register x none).1.remove (Sum.inl r.next_id)).1.get_by_object
      x = none ∧
    (((r.register x none).1.remove (Sum.inl r.next_id)).1.register
      y none).2 = none := by
  have htype : strToLower x.typeName = r.repository_type := by
    by_contra hc
    simp [ObjectRepository.register, hc] at hreg
  have hund : ¬ '_' ∈ x.name.data := by
    by_contra hc
    simp [ObjectRepository.register, htype, hc] at hreg
  have hfree : alGet r.base_name_to_id x.name = none := by
    by_contra hc
    simp [ObjectRepository.register, htype, hund,
      Option.isSome_iff_ne_none.mpr hc] at hreg
  have hr1 : r.register x none
      = ({ r with
           repository := alInsert r.repository r.next_id x,
           base_name_to_id := alInsert r.base_name_to_id x.name r.next_id,
           id_to_base_name := alInsert r.id_to_base_name r.next_id x.name,
           obj_to_id := alInsert r.obj_to_id x.objIdent r.next_id,
           obj_list := r.obj_list ++ [(r.next_id, x)],
           next_id := r.next_id + 1 }, none) := by
    simp [ObjectRepository.register, ObjectRepository.commit, htype, hund,
      hfree]
  rw [hr1]
  have hrem : (({ r with
           repository := alInsert r.repository r.next_id x,
           base_name_to_id := alInsert r.base_name_to_id x.name r.next_id,
           id_to_base_name := alInsert r.id_to_base_name r.next_id x.name,
           obj_to_id := alInsert r.obj_to_id x.objIdent r.next_id,
           obj_list := r.obj_list ++ [(r.next_id, x)],
           next_id := r.next_id + 1 } : ObjectRepository).remove
        (Sum.inl r.next_id))
      = ({ r with
           repository := alErase (alInsert r.repository r.next_id x)
             r.next_id,
           base_name_to_id :=
             alErase (alInsert r.base_name_to_id x.name r.next_id) x.name,
           id_to_base_name :=
             alErase (alInsert r.id_to_base_name r.next_id x.name) r.next_id,
           obj_to_id :=
             alErase (alInsert r.obj_to_id x.objIdent r.next_id) x.objIdent,
           obj_list := r.obj_list ++ [(r.next_id, x)],
           next_id := r.next_id + 1 }, none) := by
    simp [ObjectRepository.remove, alGet_insert_self, hx]
  rw [hrem]
  have hkeys : ∀ kv ∈ alErase (alInsert r.base_name_to_id x.name
      r.next_id) x.name, ¬ '_' ∈ (Prod.fst kv).data := by
    intro kv hkv
    rcases mem_alInsert _ _ _ _ (mem_alErase _ _ _ hkv) with h | h
    · exact hwf kv h
    · rw [h]; exact hund
  refine ⟨rfl, ?_, ?_, ?_, ?_, ?_⟩
  · simp [ObjectRepository.get_by_id, alGet_erase_self]
  · simp [ObjectRepository.get_by_name,
      extract_base_name_of_no_underscore _ _ hund, alGet_erase_self]
  · exact get_by_name_full_none _ x.name hund hkeys (alGet_erase_self _ _)
  · simp [ObjectRepository.get_by_object, alGet_erase_self]
  · simp [ObjectRepository.register, hy, hty, htype, hund,
      alGet_erase_self]

/-- Witness for C8 (amended): a fresh suffixed repository, one value
registered and removed, then re-registered. -/
theorem repository_register_remove_roundtrip_witness :
    let r0 : ObjectRepository :=
      { repository := [], base_name_to_id := [], id_to_base_name := [],
        obj_to_id := [], obj_list := [], repository_type := "value",
        postfixName := some "E1", next_id := 0 }
    let x : RepoObj := { objIdent := 3, name := "G", typeName := "Value" }
    ((r0.register x none).1.remove (Sum.inl r0.next_id)).2 = none ∧
    ((r0.register x none).1.remove (Sum.inl r0.next_id)).1.get_by_id
      r0.next_id = none ∧
    ((r0.register x none).1.remove (Sum.inl r0.next_id)).1.get_by_name
      x.name = none ∧
    ((r0.register x none).1.remove (Sum.inl r0.next_id)).1.get_by_name
      (r0.generate_full_name x.name) = none ∧
    ((r0.register x none).1.remove (Sum.inl r0.next_id)).1.get_by_object
      x = none ∧
    (((r0.register x none).1.remove (Sum.inl r0.next_id)).1.register
      x none).2 = none :=
  repository_register_remove_roundtrip _ _ _ (by decide) (by decide)
    (by decide) rfl rfl

/-! ## Element and Scheme (`Core/Element.py`, `Scheme/Scheme.py`) -/

/-- `Port.get_value` by name (`src/Core/Port.py` lines 92-98; the backend
port delegates the same lookup to its value repository): the value registered
under that name, if any. -/
def Port.get_value (p : Port) (nm : String) : Option Value :=
  p.values.find? (fun v => decide (v.name = nm))

/-- `Element` from `backend/src/Core/Element.py`: name, description, the
in-port and out-port repositories (registration-ordered, suffixed with the
element name), the parameter repository, and the presence of the two
injected behaviour hooks (`_calculate_func`, `_update_int_conn_func`).  The
hooks' own computations mutate only the element's values and are irrelevant
to every property settled here, so only their presence is modelled. -/
structure Element where
  name : String
  description : String
  in_ports : List Port
  out_ports : List Port
  parameters : List Value
  hasCalcFunc : Bool
  hasUpdIntConnFunc : Bool
deriving DecidableEq, Repr

/-- `Element.PROTECTED_ATTRS` (lines 2-7). -/
def protectedAttrs : List String :=
  ["_name", "_description", "_in_ports", "_out_ports", "_parameters",
   "_calculate_func", "_update_int_conn_func", "_setup_func",
   "PROTECTED_ATTRS"]

/-- Split a character list around its last underscore:
`(before, after)`. -/
def splitLastUnderscore (cs : List Char) : Option (List Char × List Char) :=
  let sufRev := cs.reverse.takeWhile (fun c => decide (¬ c = '_'))
  if sufRev.length = cs.length then none
  else some (cs.take (cs.length - sufRev.length - 1), sufRev.reverse)

/-- `int(...)` on a digit string. -/
def charsToNat (cs : List Char) : Nat :=
  cs.foldl (fun n c => n * 10 + (c.toNat - '0'.toNat)) 0

/-- The regex `(.+)_(\d)_(\d+)` anchored at both ends (step 2 of
`Element._resolve_target`, line 62), as its deterministic reading: the
final digit group is everything after the last underscore (the group cannot
contain an underscore), preceded by an underscore, one digit and another
underscore, with a nonempty greedy remainder in front. -/
def matchIdxPattern (nm : String) : Option (String × Nat × Nat) :=
  match splitLastUnderscore nm.data with
  | none => none
  | some (before, idx) =>
    if idx ≠ [] ∧ idx.all Char.isDigit then
      match before.reverse with
      | d :: c :: preRev =>
        if d.isDigit ∧ c = '_' ∧ preRev ≠ [] then
          some (⟨preRev.reverse⟩, d.toNat - '0'.toNat, charsToNat idx)
        else none
      | _ => none
    else none

/-- `[A-Za-z0-9]`. -/
def isAlphanumChar (c : Char) : Bool := c.isAlpha || c.isDigit

/-- The regex `(.+)_([A-Za-z0-9]+)` anchored at both ends (step 3 of
`Element._resolve_target`, line 71): the trailing group is everything after
the last underscore (nonempty, alphanumeric), with a nonempty remainder in
front. -/
def matchNamePattern (nm : String) : Option (String × String) :=
  match splitLastUnderscore nm.data with
  | none => none
  | some (pre, suf) =>
    if pre ≠ [] ∧ suf ≠ [] ∧ suf.all isAlphanumChar then
      some (⟨pre⟩, ⟨suf⟩)
    else none

/-- `repo.get_by_name` over an element's port repository, whose suffix is
the element's name. -/
def Element.portsGetByName (e : Element) (ports : List Port) (nm : String) :
    Option Port :=
  ports.find? (fun p =>
    decide (p.name = extract_base_name_pf (some e.name) nm))

/-- `attr_name in self._parameters` — `ObjectRepository.__contains__` on a
string extracts the base name (suffix: the element's name) and tests the
name index. -/
def Element.parametersContains (e : Element) (nm : String) : Bool :=
  (e.parameters.find? (fun v =>
    decide (v.name = extract_base_name_pf (some e.name) nm))).isSome

/-- `self._parameters[attr_name]` — `get_by_name` on the parameter
repository. -/
def Element.parametersGet (e : Element) (nm : String) : Option Value :=
  e.parameters.find? (fun v =>
    decide (v.name = extract_base_name_pf (some e.name) nm))

/-- `Element._resolve_target` (lines 56-78): a parameter of that name, then
the `value_dirFlag_portIndex` pattern, then the `value_portName` pattern,
else nothing.  On the index path with a valid index the source evaluates
`repo[port_index]`, which is `_obj_list[port_index]` — an `(id, port)`
tuple — and then calls `.get_value` on the tuple, raising `AttributeError`;
that raise is modelled as the error branch (the path is unreachable for
every name settled here). -/
def Element.resolve_target (e : Element) (attr : String) :
    Except String (Option Value) :=
  if e.parametersContains attr then .ok (e.parametersGet attr)
  else
    match matchIdxPattern attr with
    | some (vName, portType, portIdx) =>
      let repo := if portType = 0 then e.in_ports else e.out_ports
      if portIdx < repo.length then
        .error ("AttributeError: tuple object has no attribute get_value"
          ++ " (looking up " ++ vName ++ ")")
      else
        match matchNamePattern attr with
        | some (vName', portName) =>
          match (match e.portsGetByName e.in_ports portName with
                 | some p => some p
                 | none => e.portsGetByName e.out_ports portName) with
          | some port => .ok (port.get_value vName')
          | none => .ok none
        | none => .ok none
    | none =>
      match matchNamePattern attr with
      | some (vName', portName) =>
        match (match e.portsGetByName e.in_ports portName with
               | some p => some p
               | none => e.portsGetByName e.out_ports portName) with
        | some port => .ok (port.get_value vName')
        | none => .ok none
      | none => .ok none

/-- `Element.__getattr__` (lines 83-91): a name in `PROTECTED_ATTRS`
delegates to the default attribute lookup and yields internal state rather
than a value — no name settled here is protected, and that branch is marked
as an error distinct from the `AttributeError` of an unresolved name;
otherwise resolve the name and return the value's `(payload, status)` pair
(a resolved `Value` object is always truthy), raising `AttributeError` when
the resolver finds nothing. -/
def Element.getattrValueState (e : Element) (attr : String) :
    Except String (Option Int × ValueStatus) :=
  if attr ∈ protectedAttrs then
    .error "protected attribute: internal state, not a value"
  else
    match e.resolve_target attr with
    | .error msg => .error msg
    | .ok (some v) => .ok (v.val, v.status)
    | .ok none =>
      .error ("AttributeError: Element has no attribute " ++ attr)

/-- `element.get_internal_connection_groups_ids()` as called by
`Scheme.add_element` (line 60): no `Element` class defines such a method,
so the lookup falls through to `Element.__getattr__`. -/
def getInternalConnectionGroupsIds (e : Element) :
    Except String (Option Int × ValueStatus) :=
  e.getattrValueState "get_internal_connection_groups_ids"

/-- The `Scheme` state mutated by `add_element`: the element repository (in
registration order) and the two scheme-wide indices.  The graph's node set
and the `uuid` keys of the indices are not modelled; each index records its
entries in insertion order, `port_index` tagging the direction (0=in,
1=out) as the source does. -/
structure SchemeState where
  elements : List Element
  port_index : List (Port × Nat)
  value_index : List Value
deriving DecidableEq, Repr

/-- `Scheme.add_element` (lines 45-70): register the element (the element
repository's base-name validation), index every in-port and out-port with
its direction and every port value and parameter into the scheme-wide
indices, and only then call `element.get_internal_connection_groups_ids()`.
The source lines after that call (internal-connection edges and the return
of the element id) run only if the call returns. -/
def Scheme.add_element (s : SchemeState) (e : Element) :
    SchemeState × Option String :=
  if '_' ∈ e.name.data then
    (s, some "base name contains an underscore")
  else if (s.elements.find? (fun e' => decide (e'.name = e.name))).isSome then
    (s, some "base name already registered")
  else
    let s1 : SchemeState :=
      { elements := s.elements ++ [e],
        port_index := s.port_index
          ++ e.in_ports.map (fun p => (p, 0))
          ++ e.out_ports.map (fun p => (p, 1)),
        value_index := s.value_index
          ++ (e.in_ports.map Port.values).flatten
          ++ (e.out_ports.map Port.values).flatten
          ++ e.parameters }
    match getInternalConnectionGroupsIds e with
    | .error msg => (s1, some msg)
    | .ok _ => (s1, none)

/-- `Element.calculate` (lines 148-152): run the injected behaviour or raise
`NotImplementedError`; a present behaviour returns normally (its effects
touch only the element's own values). -/
def Element.calculate (e : Element) : Option String :=
  if e.hasCalcFunc then none
  else some "NotImplementedError: Calculate function not implemented"

/-- `Element.update_internal_connections` (lines 154-158). -/
def Element.update_internal_connections (e : Element) : Option String :=
  if e.hasUpdIntConnFunc then none
  else some
    "NotImplementedError: Update internal connections function not implemented"

/-- The guard `getattr(elem, "update_internal_connections", None)` of
`Scheme.run_calculations` (line 298): `update_internal_connections` is a
method defined on the `Element` class itself, so the default lookup always
succeeds and returns a bound method — a truthy object — whether or not the
element carries an `_update_int_conn_func` hook.  The guard is always
true. -/
def getattrUpdateIntConnTruthy (_e : Element) : Bool := true

/-- The per-element body of `Scheme.run_calculations` (lines 293-301):
`elem.calculate()` inside `try/except NotImplementedError: pass` (its
only modelled failure is that `NotImplementedError`, so the call's outcome
is discarded), then `elem.update_internal_connections()` behind the
always-true `getattr` guard, with no `try` around it.  The optional
`propagate_known_values` pass raises no `NotImplementedError` and is
omitted. -/
def runCalculationsStep (e : Element) : Option String :=
  let _swallowed := e.calculate
  if getattrUpdateIntConnTruthy e then e.update_internal_connections
  else none

/-- The element loop of `Scheme.run_calculations` (lines 288-301), over the
already-determined execution order (topological or the registration-order
fallback): an uncaught exception aborts the run. -/
def runCalculations : List Element → Option String
  | [] => none
  | e :: rest =>
    match runCalculationsStep e with
    | some err => some err
    | none => runCalculations rest

/-- C3: evaluating `run_calculations` at the failing input.  An element with
no calculate behaviour is indeed a pass-through (the `NotImplementedError`
is swallowed), but an element whose `update_internal_connections` behaviour
is absent aborts the run: the `getattr` guard checks for the method — which
the class always defines — not for the hook, and the call's
`NotImplementedError` is not caught, so `run_calculations` propagates it to
its caller, contrary to the claim. -/
theorem run_calculations_not_implemented_propagates :
    let passThrough : Element :=
      { name := "A", description := "", in_ports := [], out_ports := [],
        parameters := [], hasCalcFunc := false, hasUpdIntConnFunc := true }
    let noHook : Element :=
      { passThrough with name := "B", hasUpdIntConnFunc := false }
    runCalculations [passThrough] = none ∧
    runCalculations [noHook] = some
      "NotImplementedError: Update internal connections function not implemented" ∧
    ¬ runCalculations [noHook] = none := by
  decide

/-- Any suffix of `get_internal_connection_groups_ids` that consists of an
underscore followed by underscore-free characters is at most `_ids`, so
stripping it leaves a prefix that still contains an underscore. -/
theorem attr_strip_keeps_underscore (p : List Char)
    (hp : ¬ '_' ∈ p)
    (hsfx : ('_' :: p) <:+
      ("get_internal_connection_groups_ids" : String).data) :
    '_' ∈ ("get_internal_connection_groups_ids" : String).data.take
      (("get_internal_connection_groups_ids" : String).data.length
        - (p.length + 1)) := by
  have key : ∀ s ∈ ("get_internal_connection_groups_ids" : String).data.tails,
      s.length = 0 ∨ s.head? ≠ some '_' ∨ '_' ∈ s.tail ∨
      '_' ∈ ("get_internal_connection_groups_ids" : String).data.take
        (("get_internal_connection_groups_ids" : String).data.length
          - s.length) := by
    decide
  have hmem : ('_' :: p) ∈
      ("get_internal_connection_groups_ids" : String).data.tails :=
    (List.mem_tails _ _).mpr hsfx
  rcases key _ hmem with h | h | h | h
  · simp at h
  · simp at h
  · exact absurd h hp
  · simpa using h

/-- Extracting the base name of `get_internal_connection_groups_ids` with
any underscore-free suffix leaves a name that still contains an
underscore — so it can never be a registered base name. -/
theorem extract_attr_has_underscore (pf : Option String)
    (hpf : ∀ p, pf = some p → ¬ '_' ∈ p.data) :
    '_' ∈ (extract_base_name_pf pf
      "get_internal_connection_groups_ids").data := by
  unfold extract_base_name_pf
  cases hp : pf with
  | none => decide
  | some p =>
    show '_' ∈ (if p ≠ "" ∧ strEndsWith "get_internal_connection_groups_ids"
        ("_" ++ p) = true
      then strDropRight "get_internal_connection_groups_ids" (p.length + 1)
      else "get_internal_connection_groups_ids").data
    by_cases hpe : p = ""
    · rw [if_neg (by simp [hpe])]
      decide
    · by_cases hsfx : strEndsWith "get_internal_connection_groups_ids"
          ("_" ++ p) = true
      · rw [if_pos ⟨hpe, hsfx⟩]
        unfold strDropRight
        have hdata : ('_' :: p.data) <:+
            ("get_internal_connection_groups_ids" : String).data := by
          have hh := of_decide_eq_true hsfx
          rwa [String.data_append] at hh
        have hkey := attr_strip_keeps_underscore p.data (hpf p hp) hdata
        have hplen : p.length = p.data.length := rfl
        rw [hplen]
        simpa using hkey
      · rw [if_neg (by simp [hsfx])]
        decide

/-- For every element respecting the registration naming rules, the path
resolver cannot match `get_internal_connection_groups_ids`: the (possibly
suffix-stripped) name still contains an underscore so it is no parameter,
the index pattern fails on the non-numeric tail `ids`, and the name pattern
looks for the value `get_internal_connection_groups` — a name no port can
register — in the port named `ids`, when such a port exists. -/
theorem resolve_internal_groups_ids_none (e : Element)
    (hname : ¬ '_' ∈ e.name.data)
    (hparams : ∀ v ∈ e.parameters, ¬ '_' ∈ v.name.data)
    (hvals : ∀ p ∈ e.in_ports ++ e.out_ports, ∀ v ∈ p.values,
      ¬ '_' ∈ v.name.data) :
    e.resolve_target "get_internal_connection_groups_ids" = .ok none := by
  have hbase := extract_attr_has_underscore (some e.name)
    (fun p hp => by injection hp with hp; rw [← hp]; exact hname)
  have hfind : e.parameters.find? (fun v =>
      decide (v.name = extract_base_name_pf (some e.name)
        "get_internal_connection_groups_ids")) = none := by
    rw [List.find?_eq_none]
    intro v hv
    simp only [decide_eq_true_eq]
    intro heq
    exact hparams v hv (heq ▸ hbase)
  have hcontains : e.parametersContains
      "get_internal_connection_groups_ids" = false := by
    unfold Element.parametersContains
    rw [hfind]
    rfl
  have hidx : matchIdxPattern "get_internal_connection_groups_ids"
      = none := by decide
  have hnm : matchNamePattern "get_internal_connection_groups_ids"
      = some ("get_internal_connection_groups", "ids") := by decide
  have hgv : ∀ port ∈ e.in_ports ++ e.out_ports,
      port.get_value "get_internal_connection_groups" = none := by
    intro port hmem
    unfold Port.get_value
    rw [List.find?_eq_none]
    intro v hv
    simp only [decide_eq_true_eq]
    intro heq
    exact hvals port hmem v hv (by rw [heq]; decide)
  unfold Element.resolve_target
  rw [hcontains]
  simp only [Bool.false_eq_true, if_false, hidx, hnm]
  cases hin : e.portsGetByName e.in_ports "ids" with
  | some port =>
    have hmem : port ∈ e.in_ports ++ e.out_ports := by
      refine List.mem_append_left _ ?_
      exact List.mem_of_find?_eq_some hin
    simp [hin, hgv port hmem]
  | none =>
    cases hout : e.portsGetByName e.out_ports "ids" with
    | some port =>
      have hmem : port ∈ e.in_ports ++ e.out_ports := by
        refine List.mem_append_right _ ?_
        exact List.mem_of_find?_eq_some hout
      simp [hin, hout, hgv port hmem]
    | none => simp [hin, hout]

/-- C6: for every element that passes registration (underscore-free fresh
name) and respects the port/parameter naming rules, `Scheme.add_element`
raises an attribute-resolution error from the
`element.get_internal_connection_groups_ids()` call — a method no `Element`
class defines, so `Element.__getattr__` fails to resolve it — and the raise
happens only after the element was registered and its ports and values
indexed: the failed `add_element` leaves the scheme state changed rather
than aborting atomically. -/
theorem add_element_raises_after_mutation (s : SchemeState) (e : Element)
    (hname : ¬ '_' ∈ e.name.data)
    (hfresh : (s.elements.find? (fun e' =>
      decide (e'.name = e.name))).isSome = false)
    (hparams : ∀ v ∈ e.parameters, ¬ '_' ∈ v.name.data)
    (hvals : ∀ p ∈ e.in_ports ++ e.out_ports, ∀ v ∈ p.values,
      ¬ '_' ∈ v.name.data) :
    (Scheme.add_element s e).2 = some
      "AttributeError: Element has no attribute get_internal_connection_groups_ids" ∧
    (Scheme.add_element s e).1.elements = s.elements ++ [e] ∧
    (Scheme.add_element s e).1.port_index = s.port_index
      ++ e.in_ports.map (fun p => (p, 0))
      ++ e.out_ports.map (fun p => (p, 1)) ∧
    (Scheme.add_element s e).1.value_index = s.value_index
      ++ (e.in_ports.map Port.values).flatten
      ++ (e.out_ports.map Port.values).flatten
      ++ e.parameters := by
  have hres := resolve_internal_groups_ids_none e hname hparams hvals
  have hget : getInternalConnectionGroupsIds e = .error
      "AttributeError: Element has no attribute get_internal_connection_groups_ids" := by
    unfold getInternalConnectionGroupsIds Element.getattrValueState
    rw [if_neg (by decide), hres]
    rfl
  unfold Scheme.add_element
  rw [if_neg hname]
  rw [if_neg (by simp [hfresh])]
  rw [hget]
  exact ⟨rfl, rfl, rfl, rfl⟩

/-- Witness for C6 at a concrete scheme and element. -/
theorem add_element_raises_after_mutation_witness :
    let v1 : Value :=
      { name := "G", value_spec := ⟨some "X", none, none⟩,
        val := none, status := ValueStatus.unknown, store_prev := true,
        prev_val := none, prev_status := none,
        min_value := none, max_value := none }
    let w1 : Value := { v1 with name := "w" }
    let e : Element :=
      { name := "E1", description := "demo",
        in_ports := [{ name := "In", values := [v1] }],
        out_ports := [{ name := "Out", values := [{ v1 with name := "H" }] }],
        parameters := [w1], hasCalcFunc := true, hasUpdIntConnFunc := true }
    let s : SchemeState :=
      { elements := [], port_index := [], value_index := [] }
    (Scheme.add_element s e).2 = some
      "AttributeError: Element has no attribute get_internal_connection_groups_ids" ∧
    (Scheme.add_element s e).1.elements = s.elements ++ [e] ∧
    (Scheme.add_element s e).1.port_index = s.port_index
      ++ e.in_ports.map (fun p => (p, 0))
      ++ e.out_ports.map (fun p => (p, 1)) ∧
    (Scheme.add_element s e).1.value_index = s.value_index
      ++ (e.in_ports.map Port.values).flatten
      ++ (e.out_ports.map Port.values).flatten
      ++ e.parameters :=
  add_element_raises_after_mutation _ _ (by decide) (by decide) (by decide)
    (by decide)

/-- C4: an `update` whose (present) new payload violates a configured bound
fails and leaves payload, status, previous payload and previous status
untouched — the single-slot history is not overwritten before validation. -/
theorem update_out_of_bounds_leaves_state (v : Value) (x : Int)
    (ns : Option ValueStatus)
    (h : v.belowMin x = true ∨ v.aboveMax x = true) :
    ((v.update (some x) ns).2).isSome = true ∧
    (v.update (some x) ns).1.val = v.val ∧
    (v.update (some x) ns).1.status = v.status ∧
    (v.update (some x) ns).1.prev_val = v.prev_val ∧
    (v.update (some x) ns).1.prev_status = v.prev_status := by
  rcases h with h | h
  · simp [Value.update, Value.validate_value, h]
  · by_cases hb : v.belowMin x = true
    · simp [Value.update, Value.validate_value, hb]
    · simp [Value.update, Value.validate_value, hb, h]

/-- Witness for C4 at a concrete input: a value bounded by `[0, 10]`
updated to `11`. -/
theorem update_out_of_bounds_leaves_state_witness :
    let v : Value :=
      { name := "h", value_spec := ⟨some "enthalpy", none, some "J"⟩,
        val := some 1, status := ValueStatus.fixed, store_prev := true,
        prev_val := some 1, prev_status := some ValueStatus.fixed,
        min_value := some 0, max_value := some 10 }
    ((v.update (some 11) none).2).isSome = true ∧
    (v.update (some 11) none).1.val = v.val ∧
    (v.update (some 11) none).1.status = v.status ∧
    (v.update (some 11) none).1.prev_val = v.prev_val ∧
    (v.update (some 11) none).1.prev_status = v.prev_status :=
  update_out_of_bounds_leaves_state _ 11 none (Or.inr (by decide))

/-- C9 (counterexample): the claim says multiplication always yields the
dimension `(a)*(b)`, "including the case a = b"; but for two equal
dimensions the code yields `(a)^2`. -/
theorem combine_dims_mul_equal_dims_counterexample :
    combine_dims (some "m") (some "m") "*" = some "(m)^2" ∧
    combine_dims (some "m") (some "m") "*" ≠ some "(m)*(m)" := by
  constructor
  · rfl
  · decide

/-- C9 (amended): multiplication combines dimensions as `(a)*(b)` for
distinct dimensions and `(a)^2` for equal ones; division combines as
`(a)/(b)`, collapsing to `1` for equal dimensions; and the spec of an
arithmetic result carries exactly the combined dimension. -/
theorem mul_div_dimension_combination (a b : String) (s1 s2 : ValueClass) :
    combine_dims (some a) (some b) "*" =
      (if a = b then some ("(" ++ a ++ ")^2")
       else some ("(" ++ a ++ ")*(" ++ b ++ ")")) ∧
    combine_dims (some a) (some b) "/" =
      (if a = b then some "1"
       else some ("(" ++ a ++ ")/(" ++ b ++ ")")) ∧
    (determine_result_spec s1 s2 "*").dimension =
      combine_dims s1.dimension s2.dimension "*" ∧
    (determine_result_spec s1 s2 "/").dimension =
      combine_dims s1.dimension s2.dimension "/" := by
  refine ⟨?_, ?_, ?_, ?_⟩
  · by_cases hab : a = b <;> simp [combine_dims, hab]
  · by_cases hab : a = b <;> simp [combine_dims, hab]
  · simp [determine_result_spec]
  · simp [determine_result_spec]

end Platform
